import Mathlib

/-!
SZxLite software compression pipeline (szx_compress_hw.c).

A shallow embedding of the software path of the compressor: block statistics,
precision planner, delta-XOR byte encoder, the two bit packers and the stream
assembler.

Conventions of the embedding.

* Buffers that the C code writes through pointers are byte-addressed memories
  (functions from addresses to values); a pointer into a buffer is an offset.
  Freshly allocated buffers have arbitrary initial contents, which are
  parameters of the functions that allocate them.
* The input sample array is a list; reading past its end yields `none`.
* `size_t` and `int` counters are natural numbers (sizes are far below the
  wrap-around of a 64-bit target); every store into a narrower field (a byte,
  a 16-bit table entry) is truncated explicitly.
* The host is little-endian (byte 3 of a 32-bit word is the most significant),
  `size_t` is 64 bits wide, `float` is IEEE-754 binary32 and `double` binary64.
-/

namespace SZx

/-! ## Machine model -/

/-- Byte-addressed memory: the contents of a buffer, indexed by offset. -/
abbrev Mem := Nat → Nat

/-- Array element assignment `m[a] = v`. -/
def store {α : Type} (m : Nat → α) (a : Nat) (v : α) : Nat → α :=
  fun x => if x = a then v else m x

/-- Consecutive byte stores `m[a] = b0; m[a+1] = b1; ...`. -/
def writeBytes (m : Mem) (a : Nat) : List Nat → Mem
  | [] => m
  | b :: bs => writeBytes (store m a b) (a + 1) bs

/-- The `n` bytes of `m` starting at offset `a`. -/
def readBytes (m : Mem) (a : Nat) : Nat → List Nat
  | 0 => []
  | n + 1 => m a :: readBytes m (a + 1) n

/-- Member `byte[k]` of the union `lfloat` holding the 32-bit word `w`
(little-endian host). -/
def byteOf (w k : Nat) : Nat := (w >>> (8 * k)) % 256

/-- The function `longToBytes_bigEndian`: the eight stores
`b[k] = (unsigned char)(num >> (56 - 8k))`. -/
def longToBytes_bigEndian (m : Mem) (b : Nat) (num : Nat) : Mem :=
  let m := store m (b + 0) ((num >>> 56) % 256)
  let m := store m (b + 1) ((num >>> 48) % 256)
  let m := store m (b + 2) ((num >>> 40) % 256)
  let m := store m (b + 3) ((num >>> 32) % 256)
  let m := store m (b + 4) ((num >>> 24) % 256)
  let m := store m (b + 5) ((num >>> 16) % 256)
  let m := store m (b + 6) ((num >>> 8) % 256)
  store m (b + 7) (num % 256)

/-- The function `sizeToBytes`, a call of `longToBytes_bigEndian` on a 64-bit `size_t`. -/
def sizeToBytes (m : Mem) (outBytes : Nat) (size : Nat) : Mem :=
  longToBytes_bigEndian m outBytes (size % 2 ^ 64)

/-! ## Bit packers -/

/-- Inner loop of `convertIntArray2ByteArray_fast_1b_args`:
`for (j = 0; j < 8 && n < intArrayLength; j++) { type = intArray[n]; tmp = tmp | (type << (7-j)); n++; }`.
`cnt` is the number of values of `j` still below 8. Returns the final `(n, tmp)`. -/
def pack1bInner (intArray : Nat → Nat) (intArrayLength : Nat) :
    Nat → Nat → Nat → Nat → Nat × Nat
  | 0, _, n, tmp => (n, tmp)
  | cnt + 1, j, n, tmp =>
    if n < intArrayLength then
      pack1bInner intArray intArrayLength cnt (j + 1) (n + 1) (tmp ||| (intArray n <<< (7 - j)))
    else (n, tmp)

/-- Outer loop of `convertIntArray2ByteArray_fast_1b_args`:
`for (i = 0; i < byteLength; i++) { tmp = 0; <inner loop>; result[i] = (unsigned char)tmp; }`.
`cnt` is the number of iterations left. -/
def pack1bOuter (intArray : Nat → Nat) (intArrayLength : Nat) (result : Nat) :
    Nat → Nat → Nat → Mem → Mem
  | 0, _, _, mem => mem
  | cnt + 1, i, n, mem =>
    let r := pack1bInner intArray intArrayLength 8 0 n 0
    pack1bOuter intArray intArrayLength result cnt (i + 1) r.1 (store mem (result + i) (r.2 % 256))

/-- The function `convertIntArray2ByteArray_fast_1b_args`: packs `intArrayLength` one-bit
entries of `intArray` into the buffer `mem` at offset `result`; returns the byte length and
the buffer. -/
def convertIntArray2ByteArray_fast_1b_args (intArray : Nat → Nat) (intArrayLength : Nat)
    (mem : Mem) (result : Nat) : Nat × Mem :=
  let byteLength := if intArrayLength % 8 = 0 then intArrayLength / 8 else intArrayLength / 8 + 1
  (byteLength, pack1bOuter intArray intArrayLength result byteLength 0 0 mem)

/-- Body of the full-byte loops of `convertIntArray2ByteArray_fast_2b_args`:
`tmp = 0; tmp |= t[n++] << 6; tmp |= t[n++] << 4; tmp |= t[n++] << 2; tmp |= t[n++];`
with `tmp` an `unsigned char`. -/
def pack2bByte (timeStepType : Nat → Nat) (n : Nat) : Nat :=
  let tmp := 0
  let tmp := (tmp ||| (timeStepType n <<< 6)) % 256
  let tmp := (tmp ||| (timeStepType (n + 1) <<< 4)) % 256
  let tmp := (tmp ||| (timeStepType (n + 2) <<< 2)) % 256
  (tmp ||| timeStepType (n + 3)) % 256

/-- Full-byte loop `for (i = 0; i < bound; i++) { <body>; result[i] = tmp; }` of
`convertIntArray2ByteArray_fast_2b_args`; `cnt` iterations are left. Returns the final
`(i, n)` and the buffer. -/
def pack2bFull (timeStepType : Nat → Nat) (result : Nat) :
    Nat → Nat → Nat → Mem → Nat × Nat × Mem
  | 0, i, n, mem => (i, n, mem)
  | cnt + 1, i, n, mem =>
    pack2bFull timeStepType result cnt (i + 1) (n + 4)
      (store mem (result + i) (pack2bByte timeStepType n))

/-- Tail loop of `convertIntArray2ByteArray_fast_2b_args`:
`for (j = 0; j < mod4; j++) { type = t[n++]; tmp = tmp | type << (6-(j<<1)); }`;
`cnt` iterations are left. Returns the final `tmp`. -/
def pack2bTail (timeStepType : Nat → Nat) : Nat → Nat → Nat → Nat → Nat
  | 0, _, _, tmp => tmp
  | cnt + 1, j, n, tmp =>
    pack2bTail timeStepType cnt (j + 1) (n + 1) ((tmp ||| (timeStepType n <<< (6 - (j <<< 1)))) % 256)

/-- The function `convertIntArray2ByteArray_fast_2b_args`: packs `timeStepTypeLength` two-bit
entries into the buffer `mem` at offset `result`; returns the byte length and the buffer. -/
def convertIntArray2ByteArray_fast_2b_args (timeStepType : Nat → Nat) (timeStepTypeLength : Nat)
    (mem : Mem) (result : Nat) : Nat × Mem :=
  let byteLength :=
    if timeStepTypeLength % 4 = 0 then timeStepTypeLength * 2 / 8
    else timeStepTypeLength * 2 / 8 + 1
  if timeStepTypeLength % 4 = 0 then
    (byteLength, (pack2bFull timeStepType result byteLength 0 0 mem).2.2)
  else
    let byteLength_ := byteLength - 1
    let r := pack2bFull timeStepType result byteLength_ 0 0 mem
    let mod4 := timeStepTypeLength % 4
    let tmp := pack2bTail timeStepType mod4 0 r.2.1 0
    (byteLength, store r.2.2 (result + r.1) tmp)

/-! ## Floating-point values -/

/-- The operations of C `float` that the compressor uses, over a carrier `F`:
the comparisons `<` and `<=`, subtraction, addition, division by two, the constant `0`,
the 32-bit pattern read through the union `lfloat`, and the 64-bit pattern of the value
converted to `double`. -/
structure FloatSem (F : Type) where
  lt : F → F → Bool
  le : F → F → Bool
  sub : F → F → F
  add : F → F → F
  half : F → F
  zero : F
  bits : F → Nat
  toDouble : F → Nat

/-- Member `ivalue` of the union `lfloat` after `value` has been assigned: a 32-bit word. -/
def ivalue {F : Type} (M : FloatSem F) (x : F) : Nat := M.bits x % 2 ^ 32

/-- The function `floatToBytes`: `memcpy` of the four bytes of `num` to offset `b`. -/
def floatToBytes {F : Type} (M : FloatSem F) (m : Mem) (b : Nat) (num : F) : Mem :=
  writeBytes m b [byteOf (ivalue M num) 0, byteOf (ivalue M num) 1,
    byteOf (ivalue M num) 2, byteOf (ivalue M num) 3]

/-- The function `getExponent_float`: `((ivalue & 0x7F800000) >> 23) - 127`. -/
def getExponent_float {F : Type} (M : FloatSem F) (value : F) : Int :=
  (((ivalue M value &&& 0x7F800000) >>> 23 : Nat) : Int) - 127

/-- The function `getPrecisionReqLength_double` on the 64-bit pattern of its argument:
`((lvalue & 0x7FF0000000000000) >> 52) - 1023`. -/
def getPrecisionReqLength_double (precision : Nat) : Int :=
  ((((precision % 2 ^ 64) &&& 0x7FF0000000000000) >>> 52 : Nat) : Int) - 1023

/-- The function `computeReqLength_float`; returns the final `*reqLength` and `*medianValue`. -/
def computeReqLength_float {F : Type} (M : FloatSem F) (realPrecision : Nat) (radExpo : Int)
    (medianValue : F) : Int × F :=
  let reqExpo := getPrecisionReqLength_double realPrecision
  let reqLength := 9 + radExpo - reqExpo + 1
  let reqLength := if reqLength < 9 then 9 else reqLength
  if reqLength > 32 then (32, M.zero) else (reqLength, medianValue)

/-! ### IEEE-754 binary32 and binary64 on bit patterns -/

namespace IEEE

/-- Sign bit of a binary32 pattern. -/
def sign (b : Nat) : Nat := b / 2 ^ 31 % 2

/-- Biased exponent field of a binary32 pattern. -/
def expo (b : Nat) : Nat := b / 2 ^ 23 % 256

/-- Fraction field of a binary32 pattern. -/
def mant (b : Nat) : Nat := b % 2 ^ 23

/-- Not-a-number test. -/
def isNaN (b : Nat) : Bool := expo b == 255 && mant b != 0

/-- Infinity test. -/
def isInf (b : Nat) : Bool := expo b == 255 && mant b == 0

/-- Magnitude of a finite binary32 value, in units of `2^-150`. -/
def mag (b : Nat) : Nat :=
  if expo b = 0 then mant b * 2 else (2 ^ 23 + mant b) * 2 ^ expo b

/-- Signed value of a finite binary32 pattern, in units of `2^-150`. -/
def sval (b : Nat) : Int := if sign b = 1 then -(mag b : Int) else (mag b : Int)

/-- Value of a finite binary32 pattern as a rational number. -/
def toRat (b : Nat) : ℚ := (sval b : ℚ) / 2 ^ 150

/-- Loop computing the position of the leading one bit: `fuel` bounds the number of halvings. -/
def log2Loop : Nat → Nat → Nat
  | 0, _ => 0
  | fuel + 1, n => if 2 ≤ n then log2Loop fuel (n / 2) + 1 else 0

/-- Position of the leading one bit of `n` (0 for `n = 0`); `n` halvings always suffice. -/
def ilog2 (n : Nat) : Nat := log2Loop n n

/-- Round a magnitude given in units of `2^-150` to the nearest binary32 magnitude pattern,
ties to even; overflow gives the pattern of infinity. -/
def roundMag (n : Nat) : Nat :=
  let s := max (ilog2 n - 23) 1
  let q := n >>> s
  let r := n % 2 ^ s
  let q1 := if 2 ^ s < 2 * r ∨ (2 * r = 2 ^ s ∧ q % 2 = 1) then q + 1 else q
  let p := (s - 1) * 2 ^ 23 + q1
  if 255 * 2 ^ 23 ≤ p then 255 * 2 ^ 23 else p

/-- The canonical quiet NaN. -/
def qNaN : Nat := 0x7FC00000

/-- Sign flip. -/
def neg (b : Nat) : Nat := if sign b = 1 then b % 2 ^ 31 else b % 2 ^ 31 + 2 ^ 31

/-- Addition, round to nearest even. -/
def add (a b : Nat) : Nat :=
  if isNaN a || isNaN b then qNaN
  else if isInf a then (if isInf b && sign a != sign b then qNaN else a % 2 ^ 32)
  else if isInf b then b % 2 ^ 32
  else
    let z : Int := sval a + sval b
    if z = 0 then (if sign a = 1 ∧ sign b = 1 then 2 ^ 31 else 0)
    else if z < 0 then 2 ^ 31 + roundMag z.natAbs else roundMag z.natAbs

/-- Subtraction, round to nearest even. -/
def sub (a b : Nat) : Nat := if isNaN b then qNaN else add a (neg b)

/-- Division by two, round to nearest even. -/
def half (a : Nat) : Nat :=
  if isNaN a then qNaN
  else if isInf a then a % 2 ^ 32
  else sign a * 2 ^ 31 + roundMag (mag a / 2)

/-- Order key of a pattern that is not a NaN: sign-magnitude as an integer. -/
def key (b : Nat) : Int :=
  if sign b = 1 then -((b % 2 ^ 31 : Nat) : Int) else ((b % 2 ^ 31 : Nat) : Int)

/-- Comparison `a < b`. -/
def lt (a b : Nat) : Bool := !isNaN a && !isNaN b && decide (key a < key b)

/-- Comparison `a <= b`. -/
def le (a b : Nat) : Bool := !isNaN a && !isNaN b && decide (key a ≤ key b)

/-- Conversion of a binary32 pattern to the binary64 pattern of the same value. -/
def toDouble (b : Nat) : Nat :=
  let s := sign b * 2 ^ 63
  if expo b = 255 then (if mant b = 0 then s + 2047 * 2 ^ 52 else 0x7FF8000000000000)
  else if expo b = 0 then
    (if mant b = 0 then s
     else s + (ilog2 (mant b) + 874) * 2 ^ 52
       + (mant b - 2 ^ ilog2 (mant b)) * 2 ^ (52 - ilog2 (mant b)))
  else s + (expo b + 896) * 2 ^ 52 + mant b * 2 ^ 29

/-- Not-a-number test for a binary64 pattern. -/
def dNaN (d : Nat) : Bool := d / 2 ^ 52 % 2048 == 2047 && d % 2 ^ 52 != 0

/-- Order key of a binary64 pattern that is not a NaN. -/
def dkey (d : Nat) : Int :=
  if d / 2 ^ 63 % 2 = 1 then -((d % 2 ^ 63 : Nat) : Int) else ((d % 2 ^ 63 : Nat) : Int)

/-- Comparison `a <= b` of two binary64 patterns. -/
def dle (a b : Nat) : Bool := !dNaN a && !dNaN b && decide (dkey a ≤ dkey b)

/-- Magnitude of a finite binary64 value, in units of `2^-1075`. -/
def dmag (d : Nat) : Nat :=
  if d / 2 ^ 52 % 2048 = 0 then d % 2 ^ 52 * 2
  else (2 ^ 52 + d % 2 ^ 52) * 2 ^ (d / 2 ^ 52 % 2048)

/-- Signed value of a finite binary64 pattern, in units of `2^-1075`. -/
def dsval (d : Nat) : Int := if d / 2 ^ 63 % 2 = 1 then -(dmag d : Int) else (dmag d : Int)

/-- Value of a finite binary64 pattern as a rational number. -/
def dtoRat (d : Nat) : ℚ := (dsval d : ℚ) / 2 ^ 1075

end IEEE

/-- IEEE-754 binary32 arithmetic on 32-bit patterns as an instance of `FloatSem`. -/
def ieee32 : FloatSem Nat where
  lt := IEEE.lt
  le := IEEE.le
  sub := IEEE.sub
  add := IEEE.add
  half := IEEE.half
  zero := 0
  bits := fun b => b
  toDouble := IEEE.toDouble

/-! ## Block statistics -/

/-- Scan loop of `computeStateMedianRadius_float`:
`for (j = 1; j < len; j++) { v = oriData[offset + j]; if (min > v) min = v; else if (max < v) max = v; }`;
`cnt` iterations are left; the test `min > v` is the comparison `v < min`. Returns the final
`(min, max)`, or `none` on a read past the last sample. -/
def scanMinMax {F : Type} (M : FloatSem F) (oriData : List F) (offset : Nat) :
    Nat → Nat → F → F → Option (F × F)
  | 0, _, mn, mx => some (mn, mx)
  | cnt + 1, j, mn, mx =>
    match oriData[offset + j]? with
    | none => none
    | some v =>
      if M.lt v mn then scanMinMax M oriData offset cnt (j + 1) v mx
      else if M.lt mx v then scanMinMax M oriData offset cnt (j + 1) mn v
      else scanMinMax M oriData offset cnt (j + 1) mn mx

/-- The variables of `computeStateMedianRadius_float` that outlive a block: the running count
of constant blocks and the three per-block output arrays. -/
structure Stats (F : Type) where
  nbConstantBlocks : Nat
  stateArray : Nat → Nat
  medianArray : Nat → F
  radiusArray : Nat → F

/-- Statistics of the block of `len` samples at `offset`, recorded at index `i`: the body of
the main loop of `computeStateMedianRadius_float` (`again = true`, where the state is
assigned a second time by `stateArray[i] = radius <= absErrBound ? 0 : 1`) and of its
trailing-block branch (`again = false`). -/
def statsBlock {F : Type} (M : FloatSem F) (oriData : List F) (absErrBound : F) (again : Bool)
    (offset len i : Nat) (s : Stats F) : Option (Stats F) :=
  match oriData[offset]? with
  | none => none
  | some first =>
    match scanMinMax M oriData offset (len - 1) 1 first first with
    | none => none
    | some (mn, mx) =>
      let valueRange := M.sub mx mn
      let radius := M.half valueRange
      let medianValue := M.add mn radius
      let stateArray :=
        if M.le radius absErrBound then store s.stateArray i 0 else store s.stateArray i 1
      let nbConstantBlocks :=
        if M.le radius absErrBound then s.nbConstantBlocks + 1 else s.nbConstantBlocks
      let stateArray :=
        if again then store stateArray i (if M.le radius absErrBound then 0 else 1)
        else stateArray
      some { nbConstantBlocks := nbConstantBlocks
             stateArray := stateArray
             medianArray := store s.medianArray i medianValue
             radiusArray := store s.radiusArray i radius }

/-- Main loop `for (i = 0; i < nbBlocks; i++) { ...; offset += blockSize; }` of
`computeStateMedianRadius_float`; `cnt` iterations are left. Returns the final `i`, `offset`
and arrays. -/
def statsLoop {F : Type} (M : FloatSem F) (oriData : List F) (absErrBound : F) (blockSize : Nat) :
    Nat → Nat → Nat → Stats F → Option (Nat × Nat × Stats F)
  | 0, i, offset, s => some (i, offset, s)
  | cnt + 1, i, offset, s =>
    match statsBlock M oriData absErrBound true offset blockSize i s with
    | none => none
    | some s1 => statsLoop M oriData absErrBound blockSize cnt (i + 1) (offset + blockSize) s1

/-- The function `computeStateMedianRadius_float`. `nbEle` is the length of `oriData`; the last
three arguments are the caller's arrays as they are on entry. Division by a zero block size
and reads past the end of the samples give `none`. -/
def computeStateMedianRadius_float {F : Type} (M : FloatSem F) (oriData : List F)
    (absErrBound : F) (blockSize : Nat) (stateArray : Nat → Nat) (medianArray radiusArray : Nat → F) :
    Option (Stats F) :=
  if blockSize = 0 then none
  else
    let nbEle := oriData.length
    let nbBlocks := nbEle / blockSize
    match statsLoop M oriData absErrBound blockSize nbBlocks 0 0
        { nbConstantBlocks := 0, stateArray := stateArray,
          medianArray := medianArray, radiusArray := radiusArray } with
    | none => none
    | some (i, offset, s) =>
      let remainCount := nbEle % blockSize
      if remainCount ≠ 0 then statsBlock M oriData absErrBound false offset remainCount i s
      else some s

/-! ## Delta-XOR byte encoder -/

/-- The classification of the XOR word in `SZx_compress_one_block_float_sw`:
`if (x >> 8 == 0) 3 else if (x >> 16 == 0) 2 else if (x >> 24 == 0) 1 else 0`. -/
def leadingNumOf (x : Nat) : Nat :=
  if x >>> 8 = 0 then 3 else if x >>> 16 = 0 then 2 else if x >>> 24 = 0 then 1 else 0

/-- Bytes appended to `exactMidbyteArray` for one element in the branch `reqBytesLength == 2`. -/
def midBytes2 (leadingNum cur : Nat) : List Nat :=
  if leadingNum = 0 then [byteOf cur 2, byteOf cur 3]
  else if leadingNum = 1 then [byteOf cur 2]
  else []

/-- Bytes appended to `exactMidbyteArray` for one element in the branch `reqBytesLength == 3`. -/
def midBytes3 (leadingNum cur : Nat) : List Nat :=
  if leadingNum = 0 then [byteOf cur 2, byteOf cur 3, byteOf cur 0]
  else if leadingNum = 1 then [byteOf cur 2, byteOf cur 3]
  else if leadingNum = 2 then [byteOf cur 2]
  else [byteOf cur 0, byteOf cur 1]

/-- The variables that the element loops of `SZx_compress_one_block_float_sw` update. -/
structure EncState where
  pre : Nat
  residualMidBytes_size : Nat
  leadNumberArray_int : Nat → Nat
  mem : Mem

/-- Element loop `for (i = 0; i < nbEle; i++)` of `SZx_compress_one_block_float_sw`; `sel` is
the byte selection of the branch and `cnt` iterations are left. -/
def encodeLoop {F : Type} (M : FloatSem F) (sel : Nat → Nat → List Nat) (oriData : List F)
    (op : Nat) (medianValue : F) (rightShiftBits exactMidbyteArray : Nat) :
    Nat → Nat → EncState → Option EncState
  | 0, _, s => some s
  | cnt + 1, i, s =>
    match oriData[op + i]? with
    | none => none
    | some x =>
      let cur := ivalue M (M.sub x medianValue) >>> rightShiftBits
      let leadingNum := leadingNumOf (cur ^^^ s.pre)
      encodeLoop M sel oriData op medianValue rightShiftBits exactMidbyteArray cnt (i + 1)
        { pre := cur
          residualMidBytes_size := s.residualMidBytes_size + (sel leadingNum cur).length
          leadNumberArray_int := store s.leadNumberArray_int i leadingNum
          mem := writeBytes s.mem (exactMidbyteArray + s.residualMidBytes_size) (sel leadingNum cur) }

/-- Closing loop of `SZx_compress_one_block_float_sw`:
`for (j = 0; j < nbEle; j++) s += (lead[j] >= reqBytesLength) ? reqBytesLength : lead[j];`;
`cnt` iterations are left. -/
def actualLeadLoop (lead : Nat → Nat) (reqBytesLength : Nat) : Nat → Nat → Nat → Nat
  | 0, _, acc => acc
  | cnt + 1, j, acc =>
    actualLeadLoop lead reqBytesLength cnt (j + 1)
      (if reqBytesLength ≤ lead j then acc + reqBytesLength else acc + lead j)

/-- What a call of `SZx_compress_one_block_float_sw` leaves behind: the output buffer, the
reported `*outSize`, the scratch array, and the local total `s_actual_leadNumbers`. -/
structure BlockOut where
  outputBytes : Mem
  outSize : Nat
  leadNumberArray_int : Nat → Nat
  s_actual_leadNumbers : Nat

/-- The function `SZx_compress_one_block_float_sw`. The block is the `nbEle` samples of
`oriData` from index `op`; `mem` is the output buffer and `outputBytes` the offset in it at
which the block is written. -/
def SZx_compress_one_block_float_sw {F : Type} (M : FloatSem F) (oriData : List F)
    (op nbEle : Nat) (absErrBound : F) (mem : Mem) (outputBytes : Nat)
    (leadNumberArray_int : Nat → Nat) (medianValue radius : F) : Option BlockOut :=
  let radExpo := getExponent_float M radius
  let planned := computeReqLength_float M (M.toDouble absErrBound) radExpo medianValue
  let reqLength := planned.1.toNat
  let medianValue := planned.2
  let reqBytesLength := reqLength / 8
  let resiBitsLength := reqLength % 8
  let leadNumberArray_size := if nbEle % 4 = 0 then nbEle / 4 else nbEle / 4 + 1
  let leadNumberArray := outputBytes + 1 + 4
  let exactMidbyteArray := leadNumberArray + leadNumberArray_size
  let rightShiftBits := if resiBitsLength ≠ 0 then 8 - resiBitsLength else 0
  let reqBytesLength := if resiBitsLength ≠ 0 then reqBytesLength + 1 else reqBytesLength
  let s0 : EncState :=
    { pre := 0, residualMidBytes_size := 0, leadNumberArray_int := leadNumberArray_int, mem := mem }
  let looped :=
    if reqBytesLength = 2 then
      encodeLoop M midBytes2 oriData op medianValue rightShiftBits exactMidbyteArray nbEle 0 s0
    else if reqBytesLength = 3 then
      encodeLoop M midBytes3 oriData op medianValue rightShiftBits exactMidbyteArray nbEle 0 s0
    else some s0
  match looped with
  | none => none
  | some s =>
    let mem := (convertIntArray2ByteArray_fast_2b_args s.leadNumberArray_int nbEle s.mem
      leadNumberArray).2
    let mem := store mem (outputBytes + 0) (reqLength % 256)
    let mem := floatToBytes M mem (outputBytes + 1) medianValue
    let totalSize := 1 + 4 + leadNumberArray_size + s.residualMidBytes_size
    some { outputBytes := mem
           outSize := totalSize
           leadNumberArray_int := s.leadNumberArray_int
           s_actual_leadNumbers := actualLeadLoop s.leadNumberArray_int reqBytesLength nbEle 0 0 }

/-! ## Stream assembler -/

/-- Version byte `SZx_VER_MAJOR` of define.h. -/
def SZx_VER_MAJOR : Nat := 0

/-- Version byte `SZx_VER_MINOR` of define.h. -/
def SZx_VER_MINOR : Nat := 1

/-- Initial contents of the five buffers that `SZx_compress_float` allocates. -/
structure Uninit (F : Type) where
  outputBytes : Mem
  leadNumberArray_int : Nat → Nat
  stateArray : Nat → Nat
  medianArray : Nat → F
  radiusArray : Nat → F

/-- The variables that the block loop of `SZx_compress_float` updates: the output buffer, the
scratch array, the cursors `p` and `q` (offsets in the output buffer), `*outSize` and
`nonConstantBlockID`. -/
structure AsmState where
  mem : Mem
  leadNumberArray_int : Nat → Nat
  p : Nat
  q : Nat
  outSize : Nat
  nonConstantBlockID : Nat

/-- Store of a `uint16_t` at byte offset `a` (little-endian host). -/
def storeU16 (m : Mem) (a v : Nat) : Mem :=
  store (store m a (v % 256)) (a + 1) (v / 256 % 256)

/-- Body of the main block loop of `SZx_compress_float` for block `i`, whose samples start at
`op`; `tableO` is the offset of the block-size table `O`. -/
def asmBlock {F : Type} (M : FloatSem F) (oriData : List F) (absErrBound : F) (blockSize : Nat)
    (tableO : Nat) (st : Stats F) (op i : Nat) (s : AsmState) : Option AsmState :=
  if st.stateArray i ≠ 0 then
    match SZx_compress_one_block_float_sw M oriData op blockSize absErrBound s.mem s.q
        s.leadNumberArray_int (st.medianArray i) (st.radiusArray i) with
    | none => none
    | some o =>
      some { mem := storeU16 o.outputBytes (tableO + 2 * s.nonConstantBlockID) (o.outSize % 65536)
             leadNumberArray_int := o.leadNumberArray_int
             p := s.p
             q := s.q + o.outSize
             outSize := s.outSize + o.outSize
             nonConstantBlockID := s.nonConstantBlockID + 1 }
  else
    some { s with mem := floatToBytes M s.mem s.p (st.medianArray i), p := s.p + 4 }

/-- Main block loop `for (i = 0; i < nbBlocks; i++, op += blockSize)` of `SZx_compress_float`;
`cnt` iterations are left. Returns the final `i`, `op` and variables. -/
def asmLoop {F : Type} (M : FloatSem F) (oriData : List F) (absErrBound : F) (blockSize : Nat)
    (tableO : Nat) (st : Stats F) : Nat → Nat → Nat → AsmState → Option (Nat × Nat × AsmState)
  | 0, i, op, s => some (i, op, s)
  | cnt + 1, i, op, s =>
    match asmBlock M oriData absErrBound blockSize tableO st op i s with
    | none => none
    | some s1 => asmLoop M oriData absErrBound blockSize tableO st cnt (i + 1) (op + blockSize) s1

/-- Trailing-block branch of `SZx_compress_float` (`remainCount != 0`): the cursors are not
advanced any more. -/
def asmTail {F : Type} (M : FloatSem F) (oriData : List F) (absErrBound : F) (remainCount : Nat)
    (tableO : Nat) (st : Stats F) (op i : Nat) (s : AsmState) : Option AsmState :=
  if st.stateArray i ≠ 0 then
    match SZx_compress_one_block_float_sw M oriData op remainCount absErrBound s.mem s.q
        s.leadNumberArray_int (st.medianArray i) (st.radiusArray i) with
    | none => none
    | some o =>
      some { s with mem := storeU16 o.outputBytes (tableO + 2 * s.nonConstantBlockID)
                      (o.outSize % 65536)
                    leadNumberArray_int := o.leadNumberArray_int
                    outSize := s.outSize + o.outSize }
  else
    some { s with mem := floatToBytes M s.mem s.p (st.medianArray i) }

/-- The number of blocks `actualNBBlocks` of `SZx_compress_float`:
`remainCount == 0 ? nbBlocks : nbBlocks + 1`. -/
def actualNBBlocks (nbEle blockSize : Nat) : Nat :=
  if nbEle % blockSize = 0 then nbEle / blockSize else nbEle / blockSize + 1

/-- The result of `SZx_compress_float`: the returned buffer and `*outSize`. -/
structure Compressed where
  outputBytes : Mem
  outSize : Nat

/-- The function `SZx_compress_float` with the software block encoder
(`g_use_hardware_acceleration == 0`). `nbEle` is the length of `oriData`; `u` gives the
initial contents of the allocated buffers. -/
def SZx_compress_float {F : Type} (M : FloatSem F) (oriData : List F) (absErrBound : F)
    (blockSize : Nat) (u : Uninit F) : Option Compressed :=
  if blockSize = 0 then none
  else
    let nbEle := oriData.length
    let nbBlocks := nbEle / blockSize
    let remainCount := nbEle % blockSize
    let actualNBBlocks := actualNBBlocks nbEle blockSize
    let stateNBBytes := if actualNBBlocks % 8 = 0 then actualNBBlocks / 8 else actualNBBlocks / 8 + 1
    match computeStateMedianRadius_float M oriData absErrBound blockSize u.stateArray
        u.medianArray u.radiusArray with
    | none => none
    | some st =>
      let nbConstantBlocks := st.nbConstantBlocks
      let nbNonConstantBlocks := actualNBBlocks - nbConstantBlocks
      let mem := store u.outputBytes 0 SZx_VER_MAJOR
      let mem := store mem 1 SZx_VER_MINOR
      let mem := store mem 2 1
      let mem := store mem 3 1
      let r := 4
      let mem := sizeToBytes mem r blockSize
      let r := r + 8
      let mem := sizeToBytes mem r nbConstantBlocks
      let r := r + 8
      let tableO := r
      let bitmapR := r + nbNonConstantBlocks * 2
      let p := bitmapR + stateNBBytes
      let q := p + 4 * nbConstantBlocks
      let s0 : AsmState :=
        { mem := mem, leadNumberArray_int := u.leadNumberArray_int, p := p, q := q,
          outSize := q, nonConstantBlockID := 0 }
      match asmLoop M oriData absErrBound blockSize tableO st nbBlocks 0 0 s0 with
      | none => none
      | some (i, op, s) =>
        let tail :=
          if remainCount ≠ 0 then asmTail M oriData absErrBound remainCount tableO st op i s
          else some s
        match tail with
        | none => none
        | some s1 =>
          let mem := (convertIntArray2ByteArray_fast_1b_args st.stateArray actualNBBlocks
            s1.mem bitmapR).2
          some { outputBytes := mem, outSize := s1.outSize }

/-! ## Quantities named by the properties -/

/-- Invariant of the statistics loop after `n` blocks: every recorded state agrees with the
comparison of the recorded radius against the error bound, and the running count is the
number of recorded states equal to 0. -/
def StatsInv {F : Type} (M : FloatSem F) (absErrBound : F) (n : Nat) (s : Stats F) : Prop :=
  (∀ k < n, s.stateArray k = if M.le (s.radiusArray k) absErrBound then 0 else 1) ∧
  s.nbConstantBlocks = (List.range n).countP (fun k => decide (s.stateArray k = 0))

/-- The bit length `reqLength` that `SZx_compress_one_block_float_sw` plans for a block with
the given error bound, radius and median. -/
def reqLengthOf {F : Type} (M : FloatSem F) (absErrBound radius medianValue : F) : Nat :=
  (computeReqLength_float M (M.toDouble absErrBound) (getExponent_float M radius) medianValue).1.toNat

/-- The median in effect in `SZx_compress_one_block_float_sw` after the precision planner. -/
def medianOf {F : Type} (M : FloatSem F) (absErrBound radius medianValue : F) : F :=
  (computeReqLength_float M (M.toDouble absErrBound) (getExponent_float M radius) medianValue).2

/-- The value of `rightShiftBits` for a bit length: `8 - reqLength % 8` when `reqLength % 8`
is not 0, else 0. -/
def rightShiftBitsOf (reqLength : Nat) : Nat :=
  if reqLength % 8 ≠ 0 then 8 - reqLength % 8 else 0

/-- The final value of `reqBytesLength` for a bit length: `reqLength / 8`, plus one when
`reqLength % 8` is not 0. -/
def reqBytesLengthOf (reqLength : Nat) : Nat :=
  if reqLength % 8 ≠ 0 then reqLength / 8 + 1 else reqLength / 8

/-- The value of `leadNumberArray_size` for a block of `nbEle` elements. -/
def leadArraySize (nbEle : Nat) : Nat := if nbEle % 4 = 0 then nbEle / 4 else nbEle / 4 + 1

/-- The transformed value of element `i` of the block at `op`:
`bits(oriData[op + i] - median) >> rightShiftBits` (0 stands in for a sample past the end). -/
def transformed {F : Type} (M : FloatSem F) (oriData : List F) (op : Nat) (medianValue : F)
    (rightShiftBits i : Nat) : Nat :=
  ivalue M (M.sub (oriData.getD (op + i) M.zero) medianValue) >>> rightShiftBits

/-- The transformed values of the elements `i0, ..., i0 + cnt - 1` of the block at `op`. -/
def tList {F : Type} (M : FloatSem F) (oriData : List F) (op : Nat) (medianValue : F)
    (rightShiftBits i0 cnt : Nat) : List Nat :=
  (List.range' i0 cnt).map (transformed M oriData op medianValue rightShiftBits)

/-- The leading counts of a sequence of transformed values, each classified on its XOR with
the value before it (`pre` before the first). -/
def leadsOf : Nat → List Nat → List Nat
  | _, [] => []
  | pre, t :: ts => leadingNumOf (t ^^^ pre) :: leadsOf t ts

/-- The residual bytes of a sequence of transformed values under the byte selection `sel`. -/
def residOf (sel : Nat → Nat → List Nat) : Nat → List Nat → List Nat
  | _, [] => []
  | pre, t :: ts => sel (leadingNumOf (t ^^^ pre)) t ++ residOf sel t ts

/-- The number of most significant zero bytes of the 32-bit word `d`. -/
def zeroTopBytes (d : Nat) : Nat :=
  if byteOf d 3 ≠ 0 then 0
  else if byteOf d 2 ≠ 0 then 1
  else if byteOf d 1 ≠ 0 then 2
  else if byteOf d 0 ≠ 0 then 3
  else 4

/-- The number of residual bytes the block encoder appends for a block. -/
def residLength {F : Type} (M : FloatSem F) (oriData : List F) (op nbEle : Nat)
    (absErrBound medianValue radius : F) : Nat :=
  if reqBytesLengthOf (reqLengthOf M absErrBound radius medianValue) = 2 then
    (residOf midBytes2 0 (tList M oriData op (medianOf M absErrBound radius medianValue)
      (rightShiftBitsOf (reqLengthOf M absErrBound radius medianValue)) 0 nbEle)).length
  else if reqBytesLengthOf (reqLengthOf M absErrBound radius medianValue) = 3 then
    (residOf midBytes3 0 (tList M oriData op (medianOf M absErrBound radius medianValue)
      (rightShiftBitsOf (reqLengthOf M absErrBound radius medianValue)) 0 nbEle)).length
  else 0

/-- The length of block `i` of an array of `nbEle` samples: `blockSize` for the full blocks,
`nbEle % blockSize` for the trailing one. -/
def blockLength (nbEle blockSize i : Nat) : Nat :=
  if i < nbEle / blockSize then blockSize else nbEle % blockSize

/-- The residual bytes the block encoder appends for a block, in element order (none when
the planned byte length is neither 2 nor 3). -/
def blockResid {F : Type} (M : FloatSem F) (oriData : List F) (op nbEle : Nat)
    (absErrBound medianValue radius : F) : List Nat :=
  if reqBytesLengthOf (reqLengthOf M absErrBound radius medianValue) = 2 then
    residOf midBytes2 0 (tList M oriData op (medianOf M absErrBound radius medianValue)
      (rightShiftBitsOf (reqLengthOf M absErrBound radius medianValue)) 0 nbEle)
  else if reqBytesLengthOf (reqLengthOf M absErrBound radius medianValue) = 3 then
    residOf midBytes3 0 (tList M oriData op (medianOf M absErrBound radius medianValue)
      (rightShiftBitsOf (reqLengthOf M absErrBound radius medianValue)) 0 nbEle)
  else []

/-- The contents of the scratch array `leadNumberArray_int` after the block encoder has run on
a block: the leading counts of the `nbEle` elements when the planned byte length is 2 or 3,
the prior contents `lead0` everywhere else. -/
def blockLeads {F : Type} (M : FloatSem F) (oriData : List F) (op nbEle : Nat)
    (absErrBound medianValue radius : F) (lead0 : Nat → Nat) : Nat → Nat :=
  fun k =>
    if (reqBytesLengthOf (reqLengthOf M absErrBound radius medianValue) = 2 ∨
        reqBytesLengthOf (reqLengthOf M absErrBound radius medianValue) = 3) ∧ k < nbEle then
      (leadsOf 0 (tList M oriData op (medianOf M absErrBound radius medianValue)
        (rightShiftBitsOf (reqLengthOf M absErrBound radius medianValue)) 0 nbEle)).getD k 0
    else lead0 k

/-- Byte `j` of the two-bit packing of the `L` entries of `t`: four entries per byte from
bit 6 down, the last byte holding the `L % 4` remaining entries. -/
def packed2b (t : Nat → Nat) (L j : Nat) : Nat :=
  if j < L / 4 then pack2bByte t (4 * j) else pack2bTail t (L % 4) 0 (4 * (L / 4)) 0

/-- What the statistics pass has recorded for the first `n` blocks: entry `k` of the three
arrays holds the radius, median and state computed from the minimum and maximum that the scan
finds in block `k` (the samples from `k * blockSize`, `blockLength` many). -/
def StatsRec {F : Type} (M : FloatSem F) (oriData : List F) (absErrBound : F) (blockSize : Nat)
    (n : Nat) (s : Stats F) : Prop :=
  ∀ k < n, ∃ first mn mx,
    oriData[k * blockSize]? = some first ∧
    scanMinMax M oriData (k * blockSize) (blockLength oriData.length blockSize k - 1) 1
      first first = some (mn, mx) ∧
    s.radiusArray k = M.half (M.sub mx mn) ∧
    s.medianArray k = M.add mn (M.half (M.sub mx mn)) ∧
    s.stateArray k = (if M.le (M.half (M.sub mx mn)) absErrBound then 0 else 1)

/-- The entries from index `n` on of the three arrays are as they were on entry. -/
def StatsFrame {F : Type} (st0 : Nat → Nat) (med0 rad0 : Nat → F) (n : Nat) (s : Stats F) :
    Prop :=
  ∀ k, n ≤ k → s.stateArray k = st0 k ∧ s.medianArray k = med0 k ∧ s.radiusArray k = rad0 k

/-- The walk of the property on the two most significant bytes, for a block encoded with two
bytes per value: going through the leading counts in order, with `p3` and `p2` the bytes 3 and
2 recovered for the element before (0 before the first), an element with count 0 takes two
stored bytes (byte 2 first, then byte 3), an element with count 1 takes one stored byte as its
byte 2 and keeps `p3`, any other element keeps both. Returns the pairs (byte 3, byte 2). -/
def recoverTop2 : Nat → Nat → List Nat → List Nat → List (Nat × Nat)
  | _, _, [], _ => []
  | p3, p2, l :: ls, rs =>
    if l = 0 then
      (rs.getD 1 0, rs.getD 0 0) :: recoverTop2 (rs.getD 1 0) (rs.getD 0 0) ls (rs.drop 2)
    else if l = 1 then
      (p3, rs.getD 0 0) :: recoverTop2 p3 (rs.getD 0 0) ls (rs.drop 1)
    else (p3, p2) :: recoverTop2 p3 p2 ls rs

/-! # Properties -/

/-! ## Memory lemmas -/

@[simp] theorem store_same {α : Type} (m : Nat → α) (a : Nat) (v : α) : store m a v a = v := by
  simp [store]

theorem store_other {α : Type} (m : Nat → α) (a x : Nat) (v : α) (h : x ≠ a) :
    store m a v x = m x := by
  simp [store, h]

theorem writeBytes_outside (bs : List Nat) : ∀ (m : Mem) (a x : Nat),
    (x < a ∨ a + bs.length ≤ x) → writeBytes m a bs x = m x := by
  induction bs with
  | nil => intro m a x _; rfl
  | cons b bs ih =>
    intro m a x h
    simp only [writeBytes, List.length_cons] at h ⊢
    rw [ih (store m a b) (a + 1) x (by omega), store_other _ _ _ _ (by omega)]

theorem writeBytes_inside (bs : List Nat) : ∀ (m : Mem) (a k : Nat) (hk : k < bs.length),
    writeBytes m a bs (a + k) = bs.get ⟨k, hk⟩ := by
  induction bs with
  | nil => intro m a k hk; simp at hk
  | cons b bs ih =>
    intro m a k hk
    cases k with
    | zero =>
      simp only [writeBytes, List.get_eq_getElem, List.getElem_cons_zero, Nat.add_zero]
      rw [writeBytes_outside bs _ _ _ (by omega), store_same]
    | succ k =>
      simp only [writeBytes, List.get_eq_getElem, List.getElem_cons_succ]
      have h := ih (store m a b) (a + 1) k (by simpa using hk)
      rw [show a + (k + 1) = a + 1 + k by omega, h]
      rfl

/-! ## The one-bit packer -/

theorem testBit_le_one {x : Nat} (hx : x ≤ 1) (k : Nat) :
    x.testBit k = decide (k = 0 ∧ x = 1) := by
  have h : x = 0 ∨ x = 1 := by omega
  rcases h with h | h
  · subst h; simp
  · subst h
    cases k with
    | zero => simp
    | succ k =>
      simp [Nat.testBit_to_div_mod]
      rw [Nat.div_eq_of_lt (Nat.one_lt_two_pow (by omega))]

theorem pack1bInner_testBit (f : Nat → Nat) (L : Nat) (hf : ∀ i < L, f i ≤ 1) :
    ∀ (cnt j n tmp k : Nat), j + cnt ≤ 8 →
      (pack1bInner f L cnt j n tmp).2.testBit k =
        (tmp.testBit k ||
          decide (j + k ≤ 7 ∧ 7 - j - k < cnt ∧ n + (7 - j - k) < L ∧ f (n + (7 - j - k)) = 1)) := by
  intro cnt
  induction cnt with
  | zero => intro j n tmp k _; simp [pack1bInner]
  | succ cnt ih =>
    intro j n tmp k hj
    unfold pack1bInner
    by_cases hn : n < L
    · rw [if_pos hn, ih (j + 1) (n + 1) _ k (by omega)]
      rw [Nat.testBit_or, Nat.testBit_shiftLeft, testBit_le_one (hf n hn), Bool.or_assoc]
      congr 1
      rcases Nat.lt_trichotomy (j + k) 7 with h | h | h
      · have e1 : n + 1 + (7 - (j + 1) - k) = n + (7 - j - k) := by omega
        rw [e1]
        have e2 : ¬ (k ≥ 7 - j) := by omega
        have e3 : (6 - j - k < cnt) ↔ (7 - j - k < cnt + 1) := by omega
        have e4 : j + 1 + k ≤ 7 := by omega
        have e5 : j + k ≤ 7 := by omega
        simp [e2, e3, e4, e5]
      · have e0 : 7 - j - k = 0 := by omega
        have e1 : k ≥ 7 - j := by omega
        have e2 : k - (7 - j) = 0 := by omega
        have e4 : ¬ (j + 1 + k ≤ 7) := by omega
        have e5 : j + k ≤ 7 := by omega
        simp [e0, e1, e2, e4, e5, hn]
      · have e1 : ¬ (k - (7 - j) = 0) := by omega
        have e4 : ¬ (j + 1 + k ≤ 7) := by omega
        have e5 : ¬ (j + k ≤ 7) := by omega
        simp [e1, e4, e5]
    · rw [if_neg hn]
      have : ¬ (n + (7 - j - k) < L) := by omega
      simp [this]

theorem pack1bInner_fst (f : Nat → Nat) (L : Nat) :
    ∀ (cnt j n tmp : Nat), (pack1bInner f L cnt j n tmp).1 = min (n + cnt) (max n L) := by
  intro cnt
  induction cnt with
  | zero => intro j n tmp; simp [pack1bInner]
  | succ cnt ih =>
    intro j n tmp
    unfold pack1bInner
    by_cases hn : n < L
    · rw [if_pos hn, ih]; omega
    · rw [if_neg hn]; simp only; omega

theorem pack1bOuter_spec (f : Nat → Nat) (L result : Nat) :
    ∀ (cnt i n : Nat) (mem : Mem) (a : Nat), (cnt = 0 ∨ (n = 8 * i ∧ 8 * (i + cnt) < L + 8)) →
      pack1bOuter f L result cnt i n mem a =
        if result + i ≤ a ∧ a < result + i + cnt then
          (pack1bInner f L 8 0 (8 * (a - result)) 0).2 % 256
        else mem a := by
  intro cnt
  induction cnt with
  | zero =>
    intro i n mem a _
    rw [if_neg (by omega)]
    rfl
  | succ cnt ih =>
    intro i n mem a h
    rcases h with h | ⟨hn, hL⟩
    · omega
    · subst hn
      simp only [pack1bOuter]
      rw [ih (i + 1) _ _ a (by
        rw [pack1bInner_fst]
        by_cases hc : cnt = 0
        · exact Or.inl hc
        · refine Or.inr ⟨by omega, by omega⟩)]
      by_cases ha : a = result + i
      · subst ha
        have : ¬ (result + (i + 1) ≤ result + i ∧ result + i < result + (i + 1) + cnt) := by omega
        rw [if_neg this, store_same]
        have : result + i ≤ result + i ∧ result + i < result + i + (cnt + 1) := by omega
        rw [if_pos this]
        simp
      · by_cases hin : result + (i + 1) ≤ a ∧ a < result + (i + 1) + cnt
        · rw [if_pos hin, if_pos (by omega)]
        · rw [if_neg hin, if_neg (by omega), store_other _ _ _ _ ha]

/-- C8: the one-bit packer returns `ceil(L/8)`, leaves every byte outside the `ceil(L/8)` bytes
at `result` untouched, and stores flag `i` in bit `7 - i mod 8` of byte `i / 8`
(most significant bit first), for every sequence of `L` flags in `{0,1}`. -/
theorem pack1b_round_trip (f : Nat → Nat) (L : Nat) (mem : Mem) (result : Nat)
    (hf : ∀ i < L, f i ≤ 1) :
    (convertIntArray2ByteArray_fast_1b_args f L mem result).1 = (L + 7) / 8 ∧
    (∀ i < L, ((convertIntArray2ByteArray_fast_1b_args f L mem result).2 (result + i / 8)
        >>> (7 - i % 8)) % 2 = f i) ∧
    (∀ a, (a < result ∨ result + (L + 7) / 8 ≤ a) →
      (convertIntArray2ByteArray_fast_1b_args f L mem result).2 a = mem a) := by
  have hlen : (if L % 8 = 0 then L / 8 else L / 8 + 1) = (L + 7) / 8 := by
    split <;> omega
  simp only [convertIntArray2ByteArray_fast_1b_args, hlen]
  have hspec := fun a => pack1bOuter_spec f L result ((L + 7) / 8) 0 0 mem a
    (by by_cases h : (L + 7) / 8 = 0
        · exact Or.inl h
        · exact Or.inr ⟨rfl, by omega⟩)
  refine ⟨trivial, ?_, ?_⟩
  · intro i hi
    rw [hspec, if_pos (by omega)]
    have e : result + i / 8 - result = i / 8 := by omega
    rw [e]
    have hbit := pack1bInner_testBit f L hf 8 0 (8 * (i / 8)) 0 (7 - i % 8) (by omega)
    have hidx : 8 * (i / 8) + (7 - 0 - (7 - i % 8)) = i := by omega
    rw [hidx] at hbit
    have hfi := hf i hi
    have hmod : ((pack1bInner f L 8 0 (8 * (i / 8)) 0).2 % 256).testBit (7 - i % 8)
        = decide (f i = 1) := by
      rw [show (256 : Nat) = 2 ^ 8 by norm_num, Nat.testBit_mod_two_pow, hbit]
      have c1 : 7 - i % 8 < 8 := by omega
      have c2 : 0 + (7 - i % 8) ≤ 7 := by omega
      have c3 : 7 - 0 - (7 - i % 8) < 8 := by omega
      simp [c1, c2, c3, hi]
    rw [Nat.testBit_to_div_mod] at hmod
    rw [Nat.shiftRight_eq_div_pow]
    have h2 := Nat.mod_two_eq_zero_or_one
      ((pack1bInner f L 8 0 (8 * (i / 8)) 0).2 % 256 / 2 ^ (7 - i % 8))
    have hf01 : f i = 0 ∨ f i = 1 := by omega
    rcases hf01 with h0 | h1
    · rw [h0] at hmod ⊢
      simp at hmod
      omega
    · rw [h1] at hmod ⊢
      simpa using hmod
  · intro a ha
    rw [hspec, if_neg (by omega)]

/-- Witness for C8: the three flags 1,0,1 packed at offset 2. -/
theorem pack1b_round_trip_witness :
    (convertIntArray2ByteArray_fast_1b_args (fun i => if i = 1 then 0 else 1) 3 (fun _ => 7) 2).1
      = (3 + 7) / 8 ∧
    (∀ i < 3, ((convertIntArray2ByteArray_fast_1b_args (fun i => if i = 1 then 0 else 1) 3
        (fun _ => 7) 2).2 (2 + i / 8) >>> (7 - i % 8)) % 2 = (fun i => if i = 1 then 0 else 1) i) ∧
    (∀ a, (a < 2 ∨ 2 + (3 + 7) / 8 ≤ a) →
      (convertIntArray2ByteArray_fast_1b_args (fun i => if i = 1 then 0 else 1) 3
        (fun _ => 7) 2).2 a = (fun _ => 7) a) :=
  pack1b_round_trip (fun i => if i = 1 then 0 else 1) 3 (fun _ => 7) 2
    (by intro i _; by_cases h : i = 1 <;> simp [h])

/-! ## The two-bit packer -/

theorem pack2bByte_field (t : Nat → Nat) (n : Nat) (ht : ∀ k < 4, t (n + k) ≤ 3) :
    ∀ k < 4, (pack2bByte t n >>> (6 - 2 * k)) % 4 = t (n + k) := by
  have h0 := ht 0 (by omega)
  have h1 := ht 1 (by omega)
  have h2 := ht 2 (by omega)
  have h3 := ht 3 (by omega)
  simp only [Nat.add_zero] at h0
  unfold pack2bByte
  intro k hk
  interval_cases k <;> (try simp only [Nat.add_zero]) <;>
    generalize t n = a at * <;>
    generalize t (n + 1) = b at * <;>
    generalize t (n + 2) = c at * <;>
    generalize t (n + 3) = d at * <;>
    interval_cases a <;> interval_cases b <;> interval_cases c <;> interval_cases d <;> rfl

theorem pack2bFull_spec (t : Nat → Nat) (result : Nat) :
    ∀ (cnt i n : Nat) (mem : Mem),
      (pack2bFull t result cnt i n mem).1 = i + cnt ∧
      (pack2bFull t result cnt i n mem).2.1 = n + 4 * cnt ∧
      ∀ a, (pack2bFull t result cnt i n mem).2.2 a =
        if result + i ≤ a ∧ a < result + i + cnt then pack2bByte t (n + 4 * (a - (result + i)))
        else mem a := by
  intro cnt
  induction cnt with
  | zero =>
    intro i n mem
    refine ⟨rfl, rfl, ?_⟩
    intro a
    rw [if_neg (by omega)]
    rfl
  | succ cnt ih =>
    intro i n mem
    simp only [pack2bFull]
    obtain ⟨h1, h2, h3⟩ := ih (i + 1) (n + 4) (store mem (result + i) (pack2bByte t n))
    refine ⟨by rw [h1]; omega, by rw [h2]; omega, ?_⟩
    intro a
    rw [h3]
    by_cases ha : a = result + i
    · subst ha
      rw [if_neg (by omega), store_same, if_pos (by omega)]
      simp
    · by_cases hin : result + (i + 1) ≤ a ∧ a < result + (i + 1) + cnt
      · rw [if_pos hin, if_pos (by omega)]
        congr 1
        omega
      · rw [if_neg hin, if_neg (by omega), store_other _ _ _ _ ha]

theorem pack2bTail_field (t : Nat → Nat) (n m : Nat) (hm : m < 4)
    (ht : ∀ k < m, t (n + k) ≤ 3) :
    (∀ k < m, (pack2bTail t m 0 n 0 >>> (6 - 2 * k)) % 4 = t (n + k)) ∧
    (∀ k, m ≤ k → k < 4 → (pack2bTail t m 0 n 0 >>> (6 - 2 * k)) % 4 = 0) := by
  interval_cases m
  · refine ⟨by intro k hk; omega, ?_⟩
    intro k _ hk
    simp only [pack2bTail]
    interval_cases k <;> rfl
  · have h0 := ht 0 (by omega)
    simp only [Nat.add_zero] at h0
    simp only [pack2bTail]
    constructor
    · intro k hk
      interval_cases k
      simp only [Nat.add_zero]
      generalize t n = a at *
      interval_cases a <;> rfl
    · intro k hk1 hk
      generalize t n = a at *
      interval_cases k <;> interval_cases a <;> rfl
  · have h0 := ht 0 (by omega)
    have h1 := ht 1 (by omega)
    simp only [Nat.add_zero] at h0
    simp only [pack2bTail]
    constructor
    · intro k hk
      interval_cases k <;> (try simp only [Nat.add_zero]) <;>
        generalize t n = a at * <;>
        generalize t (n + 1) = b at * <;>
        interval_cases a <;> interval_cases b <;> rfl
    · intro k hk1 hk
      generalize t n = a at *
      generalize t (n + 1) = b at *
      interval_cases k <;> interval_cases a <;> interval_cases b <;> rfl
  · have h0 := ht 0 (by omega)
    have h1 := ht 1 (by omega)
    have h2 := ht 2 (by omega)
    simp only [Nat.add_zero] at h0
    simp only [pack2bTail]
    rw [show n + 1 + 1 = n + 2 by omega]
    constructor
    · intro k hk
      interval_cases k <;> (try simp only [Nat.add_zero]) <;>
        generalize t n = a at * <;>
        generalize t (n + 1) = b at * <;>
        generalize t (n + 2) = c at * <;>
        interval_cases a <;> interval_cases b <;> interval_cases c <;> rfl
    · intro k hk1 hk
      generalize t n = a at *
      generalize t (n + 1) = b at *
      generalize t (n + 2) = c at *
      interval_cases k
      interval_cases a <;> interval_cases b <;> interval_cases c <;> rfl

/-- Shape of the result of the two-bit packer, whatever the packed values are: the
`ceil(L/4)` bytes at `result` hold the full bytes of four entries each and, when `L` is not a
multiple of four, the byte of the remaining entries; every other byte is unchanged. -/
theorem pack2b_mem (t : Nat → Nat) (L : Nat) (mem : Mem) (result : Nat) :
    (convertIntArray2ByteArray_fast_2b_args t L mem result).1 = (L + 3) / 4 ∧
    ∀ a, (convertIntArray2ByteArray_fast_2b_args t L mem result).2 a =
      if result ≤ a ∧ a < result + L / 4 then pack2bByte t (4 * (a - result))
      else if a = result + L / 4 ∧ L % 4 ≠ 0 then pack2bTail t (L % 4) 0 (4 * (L / 4)) 0
      else mem a := by
  unfold convertIntArray2ByteArray_fast_2b_args
  by_cases h4 : L % 4 = 0
  · simp only [if_pos h4]
    refine ⟨by omega, ?_⟩
    intro a
    obtain ⟨_, _, h3⟩ := pack2bFull_spec t result (L * 2 / 8) 0 0 mem
    rw [h3]
    have e : L * 2 / 8 = L / 4 := by omega
    rw [e]
    simp only [Nat.add_zero, Nat.zero_add]
    by_cases hin : result ≤ a ∧ a < result + L / 4
    · rw [if_pos hin, if_pos hin]
    · rw [if_neg hin, if_neg hin, if_neg (by omega)]
  · simp only [if_neg h4]
    refine ⟨by omega, ?_⟩
    intro a
    obtain ⟨h1, h2, h3⟩ := pack2bFull_spec t result (L * 2 / 8 + 1 - 1) 0 0 mem
    have e : L * 2 / 8 + 1 - 1 = L / 4 := by omega
    rw [e] at h1 h2 h3
    rw [e, h1, h2]
    simp only [Nat.add_zero, Nat.zero_add] at h3 ⊢
    by_cases ha : a = result + L / 4
    · subst ha
      rw [store_same, if_neg (by omega), if_pos ⟨rfl, h4⟩]
    · rw [store_other _ _ _ _ ha, h3]
      by_cases hin : result ≤ a ∧ a < result + L / 4
      · rw [if_pos hin, if_pos hin]
      · rw [if_neg hin, if_neg hin, if_neg (by tauto)]

/-- C9: the two-bit packer returns `ceil(L/4)`, stores value `i` in the two-bit field at bits
`7 - 2*(i mod 4)` and `6 - 2*(i mod 4)` of byte `i / 4`, leaves the unused low-order fields of
a final incomplete byte 0, and leaves every byte outside the `ceil(L/4)` bytes at `result`
untouched, for every sequence of `L` values in `{0,1,2,3}`. -/
theorem pack2b_round_trip (t : Nat → Nat) (L : Nat) (mem : Mem) (result : Nat)
    (ht : ∀ i < L, t i ≤ 3) :
    (convertIntArray2ByteArray_fast_2b_args t L mem result).1 = (L + 3) / 4 ∧
    (∀ i < L, ((convertIntArray2ByteArray_fast_2b_args t L mem result).2 (result + i / 4)
        >>> (6 - 2 * (i % 4))) % 4 = t i) ∧
    (∀ k, L % 4 ≠ 0 → L % 4 ≤ k → k < 4 →
      ((convertIntArray2ByteArray_fast_2b_args t L mem result).2 (result + L / 4)
        >>> (6 - 2 * k)) % 4 = 0) ∧
    (∀ a, (a < result ∨ result + (L + 3) / 4 ≤ a) →
      (convertIntArray2ByteArray_fast_2b_args t L mem result).2 a = mem a) := by
  obtain ⟨hlen, hmem⟩ := pack2b_mem t L mem result
  refine ⟨hlen, ?_, ?_, ?_⟩
  · intro i hi
    rw [hmem]
    by_cases hfull : i / 4 < L / 4
    · rw [if_pos (by omega)]
      have e : result + i / 4 - result = i / 4 := by omega
      rw [e]
      have := pack2bByte_field t (4 * (i / 4)) (by intro k hk; exact ht _ (by omega))
        (i % 4) (by omega)
      rw [this]
      congr 1
      omega
    · have hq : i / 4 = L / 4 := by
        have : i / 4 ≤ L / 4 := Nat.div_le_div_right (by omega)
        omega
      have hmod : L % 4 ≠ 0 := by omega
      rw [if_neg (by omega), if_pos ⟨by rw [hq], hmod⟩]
      have := (pack2bTail_field t (4 * (L / 4)) (L % 4) (by omega)
        (by intro k hk; exact ht _ (by omega))).1 (i % 4) (by omega)
      rw [this]
      congr 1
      omega
  · intro k hmod hk1 hk
    rw [hmem, if_neg (by omega), if_pos ⟨rfl, hmod⟩]
    exact (pack2bTail_field t (4 * (L / 4)) (L % 4) (by omega)
      (by intro k hk; exact ht _ (by omega))).2 k hk1 hk
  · intro a ha
    rw [hmem, if_neg (by omega), if_neg (by omega)]

/-- Witness for C9: the five values 3,1,0,2,1 packed at offset 1 (one full byte and a final
byte with three unused fields). -/
theorem pack2b_round_trip_witness :
    (convertIntArray2ByteArray_fast_2b_args (fun i => [3, 1, 0, 2, 1].getD i 0) 5
      (fun _ => 255) 1).1 = (5 + 3) / 4 ∧
    (∀ i < 5, ((convertIntArray2ByteArray_fast_2b_args (fun i => [3, 1, 0, 2, 1].getD i 0) 5
        (fun _ => 255) 1).2 (1 + i / 4) >>> (6 - 2 * (i % 4))) % 4
        = (fun i => [3, 1, 0, 2, 1].getD i 0) i) ∧
    (∀ k, 5 % 4 ≠ 0 → 5 % 4 ≤ k → k < 4 →
      ((convertIntArray2ByteArray_fast_2b_args (fun i => [3, 1, 0, 2, 1].getD i 0) 5
        (fun _ => 255) 1).2 (1 + 5 / 4) >>> (6 - 2 * k)) % 4 = 0) ∧
    (∀ a, (a < 1 ∨ 1 + (5 + 3) / 4 ≤ a) →
      (convertIntArray2ByteArray_fast_2b_args (fun i => [3, 1, 0, 2, 1].getD i 0) 5
        (fun _ => 255) 1).2 a = (fun _ => 255) a) :=
  pack2b_round_trip (fun i => [3, 1, 0, 2, 1].getD i 0) 5 (fun _ => 255) 1
    (by intro i hi; interval_cases i <;> decide)

/-! ## The precision planner -/

theorem exponent_field_double (e : Nat) :
    ((e % 2 ^ 64) &&& 0x7FF0000000000000) >>> 52 = e / 2 ^ 52 % 2048 := by
  have hc : (0x7FF0000000000000 : Nat) = (2 ^ 11 - 1) <<< 52 := by decide
  rw [hc, show (2048 : Nat) = 2 ^ 11 by norm_num, ← Nat.shiftRight_eq_div_pow]
  apply Nat.eq_of_testBit_eq
  intro j
  simp only [Nat.testBit_shiftRight, Nat.testBit_and, Nat.testBit_mod_two_pow,
    Nat.testBit_shiftLeft, Nat.testBit_two_pow_sub_one]
  by_cases hj : j < 11
  · have h1 : 52 + j < 64 := by omega
    have h2 : 52 + j ≥ 52 := by omega
    have h3 : 52 + j - 52 < 11 := by omega
    simp [hj, h1, h2, h3]
  · have h3 : ¬ (52 + j - 52 < 11) := by omega
    simp [hj, h3]

theorem getPrecisionReqLength_double_eq (e : Nat) :
    getPrecisionReqLength_double e = ((e / 2 ^ 52 % 2048 : Nat) : Int) - 1023 := by
  unfold getPrecisionReqLength_double
  rw [exponent_field_double]

theorem computeReqLength_float_fst {F : Type} (M : FloatSem F) (e : Nat) (r : Int) (median : F) :
    (computeReqLength_float M e r median).1
      = max 9 (min 32 (10 + r - (((e / 2 ^ 52 % 2048 : Nat) : Int) - 1023))) := by
  unfold computeReqLength_float
  rw [getPrecisionReqLength_double_eq]
  simp only
  split_ifs <;> omega

theorem computeReqLength_float_snd {F : Type} (M : FloatSem F) (e : Nat) (r : Int) (median : F) :
    (computeReqLength_float M e r median).2
      = if 32 < 10 + r - (((e / 2 ^ 52 % 2048 : Nat) : Int) - 1023) then M.zero else median := by
  unfold computeReqLength_float
  rw [getPrecisionReqLength_double_eq]
  simp only
  split_ifs <;> first | rfl | omega

/-- C6: `computeReqLength_float` sets `reqLength` to `10 + r - E(e)` clamped into `[9,32]`,
where `E(e)`, the result of `getPrecisionReqLength_double`, is the biased exponent field of the
double `e` minus 1023; it replaces the median by 0 exactly when `10 + r - E(e) > 32` and
leaves it unchanged otherwise. -/
theorem computeReqLength_float_clamp {F : Type} (M : FloatSem F) (e : Nat) (r : Int) (median : F) :
    getPrecisionReqLength_double e = ((e / 2 ^ 52 % 2048 : Nat) : Int) - 1023 ∧
    (computeReqLength_float M e r median).1
      = max 9 (min 32 (10 + r - (getPrecisionReqLength_double e))) ∧
    ((computeReqLength_float M e r median).2 = M.zero ∨
      (computeReqLength_float M e r median).2 = median) ∧
    (32 < 10 + r - getPrecisionReqLength_double e →
      (computeReqLength_float M e r median).2 = M.zero) ∧
    (10 + r - getPrecisionReqLength_double e ≤ 32 →
      (computeReqLength_float M e r median).2 = median) := by
  have hE := getPrecisionReqLength_double_eq e
  have h2 := computeReqLength_float_snd M e r median
  rw [← hE] at h2
  refine ⟨hE, ?_, ?_, ?_, ?_⟩
  · rw [computeReqLength_float_fst, hE]
  · by_cases h : 32 < 10 + r - getPrecisionReqLength_double e
    · left; rw [h2, if_pos h]
    · right; rw [h2, if_neg h]
  · intro h; rw [h2, if_pos h]
  · intro h; rw [h2, if_neg (by omega)]

theorem computeReqLength_float_range {F : Type} (M : FloatSem F) (e : Nat) (r : Int) (median : F) :
    9 ≤ (computeReqLength_float M e r median).1 ∧ (computeReqLength_float M e r median).1 ≤ 32 := by
  rw [computeReqLength_float_fst M e r median]
  omega

theorem dle_nonneg_exponent (e1 e2 : Nat) (h0 : IEEE.dle 0 e1 = true)
    (h : IEEE.dle e1 e2 = true) : e1 / 2 ^ 52 % 2048 ≤ e2 / 2 ^ 52 % 2048 := by
  simp only [IEEE.dle, IEEE.dkey, Bool.and_eq_true, decide_eq_true_eq] at h0 h
  have k0 := h0.2
  have k1 := h.2
  have hk : e1 % 2 ^ 63 ≤ e2 % 2 ^ 63 := by
    norm_num at k0
    split_ifs at k0 k1 <;> omega
  have f1 : e1 / 2 ^ 52 % 2048 = e1 % 2 ^ 63 / 2 ^ 52 := by omega
  have f2 : e2 / 2 ^ 52 % 2048 = e2 % 2 ^ 63 / 2 ^ 52 := by omega
  rw [f1, f2]
  exact Nat.div_le_div_right hk

/-- C7: precision monotonicity. For a fixed radius exponent `r` and two doubles
`0 <= e1 <= e2` (IEEE comparison), the `reqLength` computed for `e2` is at most the one
computed for `e1`. -/
theorem computeReqLength_float_antitone {F : Type} (M : FloatSem F) (r : Int) (median : F)
    (e1 e2 : Nat) (h0 : IEEE.dle 0 e1 = true) (h : IEEE.dle e1 e2 = true) :
    (computeReqLength_float M e2 r median).1 ≤ (computeReqLength_float M e1 r median).1 := by
  have hexp := dle_nonneg_exponent e1 e2 h0 h
  rw [computeReqLength_float_fst M e1 r median, computeReqLength_float_fst M e2 r median]
  omega

/-- Witness for C7: error bounds 0.001 and 0.5 (as doubles) at radius exponent 5 give the bit
lengths 25 and 16. -/
theorem computeReqLength_float_antitone_witness :
    IEEE.dle 0 0x3F50624DE0000000 = true ∧
    IEEE.dle 0x3F50624DE0000000 0x3FE0000000000000 = true ∧
    (computeReqLength_float ieee32 0x3FE0000000000000 5 0).1 = 16 ∧
    (computeReqLength_float ieee32 0x3F50624DE0000000 5 0).1 = 25 ∧
    (computeReqLength_float ieee32 0x3FE0000000000000 5 0).1
      ≤ (computeReqLength_float ieee32 0x3F50624DE0000000 5 0).1 :=
  ⟨by decide, by decide, by decide, by decide,
    computeReqLength_float_antitone ieee32 5 0 0x3F50624DE0000000 0x3FE0000000000000
      (by decide) (by decide)⟩

/-! ## The order of doubles -/

theorem dmag_mono_aux (E1 E2 f1 f2 : Nat) (h1 : f1 < 2 ^ 52) (h2 : f2 < 2 ^ 52) :
    E1 * 2 ^ 52 + f1 ≤ E2 * 2 ^ 52 + f2 ↔
      (if E1 = 0 then f1 * 2 else (2 ^ 52 + f1) * 2 ^ E1)
        ≤ (if E2 = 0 then f2 * 2 else (2 ^ 52 + f2) * 2 ^ E2) := by
  have hlow : ∀ E f : Nat, f < 2 ^ 52 →
      (if E = 0 then f * 2 else (2 ^ 52 + f) * 2 ^ E) < 2 ^ 53 * 2 ^ E := by
    intro E f hf
    by_cases hE : E = 0
    · subst hE; simp; omega
    · rw [if_neg hE]
      exact Nat.mul_lt_mul_of_pos_right (by omega) (Nat.pow_pos (by norm_num))
  have hhigh : ∀ E f : Nat, E ≠ 0 →
      2 ^ 52 * 2 ^ E ≤ (if E = 0 then f * 2 else (2 ^ 52 + f) * 2 ^ E) := by
    intro E f hE
    rw [if_neg hE]
    exact Nat.mul_le_mul_right _ (by omega)
  have hstep : ∀ E E' : Nat, E < E' → 2 ^ 53 * 2 ^ E ≤ 2 ^ 52 * 2 ^ E' := by
    intro E E' h
    have : 2 ^ (E + 1) ≤ 2 ^ E' := Nat.pow_le_pow_right (by norm_num) h
    calc 2 ^ 53 * 2 ^ E = 2 ^ 52 * 2 ^ (E + 1) := by ring
      _ ≤ 2 ^ 52 * 2 ^ E' := Nat.mul_le_mul_left _ this
  rcases Nat.lt_trichotomy E1 E2 with h | h | h
  · have hm1 := hlow E1 f1 h1
    have hm2 := hhigh E2 f2 (by omega)
    have hs := hstep E1 E2 h
    have hk : (E1 + 1) * 2 ^ 52 ≤ E2 * 2 ^ 52 := Nat.mul_le_mul_right _ h
    have e : (E1 + 1) * 2 ^ 52 = E1 * 2 ^ 52 + 2 ^ 52 := Nat.succ_mul _ _
    constructor
    · intro _; omega
    · intro _; omega
  · subst h
    by_cases hE : E1 = 0
    · subst hE; simp
    · rw [if_neg hE, if_neg hE]
      have hp : 0 < 2 ^ E1 := Nat.pow_pos (by norm_num)
      constructor
      · intro h
        exact Nat.mul_le_mul_right _ (by omega)
      · intro h
        have := Nat.le_of_mul_le_mul_right h hp
        omega
  · have hm1 := hlow E2 f2 h2
    have hm2 := hhigh E1 f1 (by omega)
    have hs := hstep E2 E1 h
    have hk : (E2 + 1) * 2 ^ 52 ≤ E1 * 2 ^ 52 := Nat.mul_le_mul_right _ h
    have e : (E2 + 1) * 2 ^ 52 = E2 * 2 ^ 52 + 2 ^ 52 := Nat.succ_mul _ _
    constructor
    · intro _; omega
    · intro _; omega

theorem dmag_le_iff (a b : Nat) : a % 2 ^ 63 ≤ b % 2 ^ 63 ↔ IEEE.dmag a ≤ IEEE.dmag b := by
  have ha : a % 2 ^ 63 = a / 2 ^ 52 % 2048 * 2 ^ 52 + a % 2 ^ 52 := by omega
  have hb : b % 2 ^ 63 = b / 2 ^ 52 % 2048 * 2 ^ 52 + b % 2 ^ 52 := by omega
  rw [ha, hb]
  exact dmag_mono_aux _ _ _ _ (Nat.mod_lt _ (by norm_num)) (Nat.mod_lt _ (by norm_num))

theorem dmag_eq_zero_iff (a : Nat) : IEEE.dmag a = 0 ↔ a % 2 ^ 63 = 0 := by
  have h0 := dmag_le_iff a 0
  have hz : IEEE.dmag 0 = 0 := by decide
  rw [hz] at h0
  simp only [Nat.zero_mod, Nat.le_zero] at h0
  exact h0.symm

/-- The comparison `dle` of two finite doubles is the order of their values. -/
theorem dle_iff_dtoRat_le (a b : Nat) (ha : a / 2 ^ 52 % 2048 ≠ 2047)
    (hb : b / 2 ^ 52 % 2048 ≠ 2047) :
    IEEE.dle a b = true ↔ IEEE.dtoRat a ≤ IEEE.dtoRat b := by
  have hval : IEEE.dtoRat a ≤ IEEE.dtoRat b ↔ IEEE.dsval a ≤ IEEE.dsval b := by
    unfold IEEE.dtoRat
    rw [div_le_div_iff_of_pos_right (by positivity)]
    exact Int.cast_le
  have hna : IEEE.dNaN a = false := by
    unfold IEEE.dNaN
    rw [Bool.and_eq_false_iff]
    left
    simpa using ha
  have hnb : IEEE.dNaN b = false := by
    unfold IEEE.dNaN
    rw [Bool.and_eq_false_iff]
    left
    simpa using hb
  rw [hval]
  simp only [IEEE.dle, hna, hnb, Bool.not_false, Bool.true_and, decide_eq_true_eq, IEEE.dkey,
    IEEE.dsval]
  have hab := dmag_le_iff a b
  have hba := dmag_le_iff b a
  have hza := dmag_eq_zero_iff a
  have hzb := dmag_eq_zero_iff b
  split_ifs <;> omega

/-! ## Block statistics -/

theorem scanMinMax_total {F : Type} (M : FloatSem F) (oriData : List F) (offset : Nat) :
    ∀ (cnt j : Nat) (mn mx : F), offset + j + cnt ≤ oriData.length →
      ∃ r, scanMinMax M oriData offset cnt j mn mx = some r := by
  intro cnt
  induction cnt with
  | zero => intro j mn mx _; exact ⟨_, rfl⟩
  | succ cnt ih =>
    intro j mn mx h
    have hlt : offset + j < oriData.length := by omega
    simp only [scanMinMax, List.getElem?_eq_getElem hlt]
    split_ifs
    · exact ih (j + 1) _ _ (by omega)
    · exact ih (j + 1) _ _ (by omega)
    · exact ih (j + 1) _ _ (by omega)

/-- The record that the body of the statistics loop produces from the radius and median it
has computed for block `i`. -/
theorem statsBlock_eq {F : Type} (M : FloatSem F) (oriData : List F) (absErrBound : F)
    (again : Bool) (offset len i : Nat) (s : Stats F)
    (hlen : 1 ≤ len) (hin : offset + len ≤ oriData.length) :
    ∃ mn mx, scanMinMax M oriData offset (len - 1) 1
        (oriData.get ⟨offset, by omega⟩) (oriData.get ⟨offset, by omega⟩) = some (mn, mx) ∧
      statsBlock M oriData absErrBound again offset len i s = some
        { nbConstantBlocks :=
            if M.le (M.half (M.sub mx mn)) absErrBound then s.nbConstantBlocks + 1
            else s.nbConstantBlocks
          stateArray := store s.stateArray i (if M.le (M.half (M.sub mx mn)) absErrBound then 0 else 1)
          medianArray := store s.medianArray i (M.add mn (M.half (M.sub mx mn)))
          radiusArray := store s.radiusArray i (M.half (M.sub mx mn)) } := by
  have hlt : offset < oriData.length := by omega
  obtain ⟨⟨mn, mx⟩, hr⟩ := scanMinMax_total M oriData offset (len - 1) 1
    (oriData.get ⟨offset, hlt⟩) (oriData.get ⟨offset, hlt⟩) (by omega)
  refine ⟨mn, mx, hr, ?_⟩
  simp only [List.get_eq_getElem] at hr
  simp only [statsBlock, List.getElem?_eq_getElem hlt, hr]
  congr 2
  funext x
  by_cases hx : x = i <;> cases again <;>
    by_cases hle : M.le (M.half (M.sub mx mn)) absErrBound = true <;>
    simp [hle, hx, store]

theorem countP_range_congr (n : Nat) (p q : Nat → Bool) (h : ∀ k < n, p k = q k) :
    (List.range n).countP p = (List.range n).countP q := by
  apply List.countP_congr
  intro k hk
  rw [h k (List.mem_range.mp hk)]

theorem statsBlock_inv {F : Type} (M : FloatSem F) (oriData : List F) (absErrBound : F)
    (again : Bool) (offset len i : Nat) (s : Stats F)
    (hlen : 1 ≤ len) (hin : offset + len ≤ oriData.length) (hinv : StatsInv M absErrBound i s) :
    ∃ s1, statsBlock M oriData absErrBound again offset len i s = some s1 ∧
      StatsInv M absErrBound (i + 1) s1 := by
  obtain ⟨mn, mx, _, heq⟩ := statsBlock_eq M oriData absErrBound again offset len i s hlen hin
  refine ⟨_, heq, ?_, ?_⟩
  · intro k hk
    by_cases hki : k = i
    · subst hki
      simp only [store_same]
    · simp only [store_other _ _ _ _ hki]
      exact hinv.1 k (by omega)
  · simp only
    rw [List.range_succ, List.countP_append, hinv.2]
    rw [countP_range_congr i (fun k => decide (store s.stateArray i
        (if M.le (M.half (M.sub mx mn)) absErrBound = true then 0 else 1) k = 0))
      (fun k => decide (s.stateArray k = 0))
      (by intro k hk; simp only [store_other _ _ _ _ (show k ≠ i by omega)])]
    by_cases hle : M.le (M.half (M.sub mx mn)) absErrBound = true <;>
      simp [hle, List.countP_cons, List.countP_nil]

theorem statsLoop_inv {F : Type} (M : FloatSem F) (oriData : List F) (absErrBound : F)
    (blockSize : Nat) (hbs : 1 ≤ blockSize) :
    ∀ (cnt i offset : Nat) (s : Stats F), offset + cnt * blockSize ≤ oriData.length →
      StatsInv M absErrBound i s →
      ∃ s1, statsLoop M oriData absErrBound blockSize cnt i offset s
          = some (i + cnt, offset + cnt * blockSize, s1) ∧
        StatsInv M absErrBound (i + cnt) s1 := by
  intro cnt
  induction cnt with
  | zero =>
    intro i offset s _ hinv
    exact ⟨s, by simp [statsLoop], hinv⟩
  | succ cnt ih =>
    intro i offset s hin hinv
    have hmul : (cnt + 1) * blockSize = cnt * blockSize + blockSize := Nat.succ_mul cnt blockSize
    rw [hmul] at hin
    rw [hmul]
    obtain ⟨s1, h1, hinv1⟩ := statsBlock_inv M oriData absErrBound true offset blockSize i s hbs
      (by omega) hinv
    obtain ⟨s2, h2, hinv2⟩ := ih (i + 1) (offset + blockSize) s1 (by omega) hinv1
    refine ⟨s2, ?_, ?_⟩
    · simp only [statsLoop, h1, h2]
      rw [show i + 1 + cnt = i + (cnt + 1) by omega,
        show offset + blockSize + cnt * blockSize = offset + (cnt * blockSize + blockSize) by omega]
    · rw [show i + (cnt + 1) = i + 1 + cnt by omega]
      exact hinv2

/-- The statistics pass terminates with a result on every input with a block size of at
least 1, and its result satisfies the loop invariant at `actualNBBlocks`. -/
theorem computeStateMedianRadius_float_inv {F : Type} (M : FloatSem F) (oriData : List F)
    (absErrBound : F) (blockSize : Nat) (st0 : Nat → Nat) (med0 rad0 : Nat → F)
    (hbs : 1 ≤ blockSize) :
    ∃ s, computeStateMedianRadius_float M oriData absErrBound blockSize st0 med0 rad0 = some s ∧
      StatsInv M absErrBound (actualNBBlocks oriData.length blockSize) s := by
  have hdm := Nat.div_add_mod oriData.length blockSize
  have hmodlt := Nat.mod_lt oriData.length (show 0 < blockSize by omega)
  have hcomm : oriData.length / blockSize * blockSize = blockSize * (oriData.length / blockSize) :=
    Nat.mul_comm _ _
  obtain ⟨s1, h1, hinv1⟩ := statsLoop_inv M oriData absErrBound blockSize hbs
    (oriData.length / blockSize) 0 0
    { nbConstantBlocks := 0, stateArray := st0, medianArray := med0, radiusArray := rad0 }
    (by omega) ⟨by intro k hk; omega, by simp⟩
  simp only [Nat.zero_add] at h1 hinv1
  unfold computeStateMedianRadius_float actualNBBlocks
  rw [if_neg (by omega)]
  simp only [h1]
  by_cases hrem : oriData.length % blockSize = 0
  · simp only [hrem, ne_eq, not_true_eq_false, if_false, if_true]
    exact ⟨s1, rfl, hinv1⟩
  · simp only [hrem, ne_eq, not_false_eq_true, if_true, if_false]
    exact statsBlock_inv M oriData absErrBound false _ _ _ s1 (by omega) (by omega) hinv1

/-- C3: for every sample array, block size of at least 1 and error bound,
`computeStateMedianRadius_float` returns, and for every block index below `actualNBBlocks`
(the trailing shorter block included) the recorded state is 0 exactly when the recorded radius
is `<=` the error bound, and 1 otherwise. -/
theorem classification_correct {F : Type} (M : FloatSem F) (oriData : List F)
    (absErrBound : F) (blockSize : Nat) (st0 : Nat → Nat) (med0 rad0 : Nat → F)
    (hbs : 1 ≤ blockSize) :
    ∃ s, computeStateMedianRadius_float M oriData absErrBound blockSize st0 med0 rad0 = some s ∧
      ∀ i < actualNBBlocks oriData.length blockSize,
        (s.stateArray i = 0 ↔ M.le (s.radiusArray i) absErrBound = true) ∧
        (s.stateArray i = 1 ↔ M.le (s.radiusArray i) absErrBound = false) := by
  obtain ⟨s, hs, hinv⟩ := computeStateMedianRadius_float_inv M oriData absErrBound blockSize
    st0 med0 rad0 hbs
  refine ⟨s, hs, ?_⟩
  intro i hi
  have h := hinv.1 i hi
  by_cases hle : M.le (s.radiusArray i) absErrBound = true
  · rw [if_pos hle] at h
    simp [h, hle]
  · rw [if_neg hle] at h
    simp [h, hle]

/-- C5: for every input with a block size of at least 1, the value returned by
`computeStateMedianRadius_float` is the number of block indices with state 0, the number of
indices with state 1 is `actualNBBlocks` minus that value, and the two counts add up to
`actualNBBlocks`. -/
theorem constant_count_correct {F : Type} (M : FloatSem F) (oriData : List F)
    (absErrBound : F) (blockSize : Nat) (st0 : Nat → Nat) (med0 rad0 : Nat → F)
    (hbs : 1 ≤ blockSize) :
    ∃ s, computeStateMedianRadius_float M oriData absErrBound blockSize st0 med0 rad0 = some s ∧
      s.nbConstantBlocks = (List.range (actualNBBlocks oriData.length blockSize)).countP
        (fun i => decide (s.stateArray i = 0)) ∧
      (List.range (actualNBBlocks oriData.length blockSize)).countP
        (fun i => decide (s.stateArray i = 1))
        = actualNBBlocks oriData.length blockSize - s.nbConstantBlocks ∧
      s.nbConstantBlocks + (List.range (actualNBBlocks oriData.length blockSize)).countP
        (fun i => decide (s.stateArray i = 1)) = actualNBBlocks oriData.length blockSize := by
  obtain ⟨s, hs, hinv⟩ := computeStateMedianRadius_float_inv M oriData absErrBound blockSize
    st0 med0 rad0 hbs
  have hone : (List.range (actualNBBlocks oriData.length blockSize)).countP
      (fun i => decide (s.stateArray i = 1))
      = (List.range (actualNBBlocks oriData.length blockSize)).countP
        (fun i => !decide (s.stateArray i = 0)) := by
    apply countP_range_congr
    intro k hk
    have h := hinv.1 k hk
    by_cases hle : M.le (s.radiusArray k) absErrBound = true
    · rw [if_pos hle] at h; simp [h]
    · rw [if_neg hle] at h; simp [h]
  have hsum := List.length_eq_countP_add_countP (fun i => decide (s.stateArray i = 0))
    (List.range (actualNBBlocks oriData.length blockSize))
  rw [List.length_range] at hsum
  have hnot : (List.range (actualNBBlocks oriData.length blockSize)).countP
      (fun i => !decide (s.stateArray i = 0))
      = (List.range (actualNBBlocks oriData.length blockSize)).countP
        (fun a => decide ¬ (decide (s.stateArray a = 0) = true)) := by
    apply countP_range_congr
    intro k _
    simp
  refine ⟨s, hs, hinv.2, ?_, ?_⟩
  · rw [hone, hnot, hinv.2]; omega
  · rw [hone, hnot, hinv.2]; omega

/-! ## The element loop of the block encoder -/

theorem writeBytes_append (l1 : List Nat) : ∀ (m : Mem) (a : Nat) (l2 : List Nat),
    writeBytes m a (l1 ++ l2) = writeBytes (writeBytes m a l1) (a + l1.length) l2 := by
  induction l1 with
  | nil => intro m a l2; rfl
  | cons b bs ih =>
    intro m a l2
    show writeBytes (store m a b) (a + 1) (bs ++ l2)
      = writeBytes (writeBytes (store m a b) (a + 1) bs) (a + (bs.length + 1)) l2
    rw [ih, show a + 1 + bs.length = a + (bs.length + 1) by omega]

theorem tList_succ {F : Type} (M : FloatSem F) (oriData : List F) (op : Nat) (medianValue : F)
    (rightShiftBits i0 cnt : Nat) :
    tList M oriData op medianValue rightShiftBits i0 (cnt + 1)
      = transformed M oriData op medianValue rightShiftBits i0
        :: tList M oriData op medianValue rightShiftBits (i0 + 1) cnt := by
  simp [tList, List.range'_succ]

theorem tList_length {F : Type} (M : FloatSem F) (oriData : List F) (op : Nat) (medianValue : F)
    (rightShiftBits i0 cnt : Nat) :
    (tList M oriData op medianValue rightShiftBits i0 cnt).length = cnt := by
  simp [tList]

theorem tList_getD {F : Type} (M : FloatSem F) (oriData : List F) (op : Nat) (medianValue : F)
    (rightShiftBits i0 cnt k : Nat) (hk : k < cnt) :
    (tList M oriData op medianValue rightShiftBits i0 cnt).getD k 0
      = transformed M oriData op medianValue rightShiftBits (i0 + k) := by
  simp [tList, List.getD_eq_getElem?_getD, List.getElem?_map, List.getElem?_range' _ _ hk]

theorem leadsOf_length : ∀ (ts : List Nat) (pre : Nat), (leadsOf pre ts).length = ts.length := by
  intro ts
  induction ts with
  | nil => intro pre; rfl
  | cons t ts ih => intro pre; simp [leadsOf, ih]

theorem leadsOf_getD : ∀ (ts : List Nat) (pre k : Nat), k < ts.length →
    (leadsOf pre ts).getD k 0
      = leadingNumOf (ts.getD k 0 ^^^ (if k = 0 then pre else ts.getD (k - 1) 0)) := by
  intro ts
  induction ts with
  | nil => intro pre k hk; simp at hk
  | cons t ts ih =>
    intro pre k hk
    cases k with
    | zero => simp [leadsOf]
    | succ k =>
      simp only [leadsOf, List.getD_cons_succ, Nat.add_sub_cancel]
      rw [ih t k (by simpa using hk)]
      cases k with
      | zero => simp
      | succ k => simp

theorem encodeLoop_spec {F : Type} (M : FloatSem F) (sel : Nat → Nat → List Nat)
    (oriData : List F) (op : Nat) (medianValue : F) (rightShiftBits exactMidbyteArray : Nat) :
    ∀ (cnt i0 : Nat) (s : EncState), op + i0 + cnt ≤ oriData.length →
      encodeLoop M sel oriData op medianValue rightShiftBits exactMidbyteArray cnt i0 s = some
        { pre := (tList M oriData op medianValue rightShiftBits i0 cnt).getLastD s.pre
          residualMidBytes_size := s.residualMidBytes_size
            + (residOf sel s.pre (tList M oriData op medianValue rightShiftBits i0 cnt)).length
          leadNumberArray_int := fun k =>
            if i0 ≤ k ∧ k < i0 + cnt then
              (leadsOf s.pre (tList M oriData op medianValue rightShiftBits i0 cnt)).getD (k - i0) 0
            else s.leadNumberArray_int k
          mem := writeBytes s.mem (exactMidbyteArray + s.residualMidBytes_size)
            (residOf sel s.pre (tList M oriData op medianValue rightShiftBits i0 cnt)) } := by
  intro cnt
  induction cnt with
  | zero =>
    intro i0 s _
    simp only [encodeLoop, tList, List.range'_zero, List.map_nil, List.getLastD_nil, residOf,
      List.length_nil, Nat.add_zero, writeBytes, leadsOf]
    cases s with
    | mk pre res lead mem =>
      simp only [Option.some.injEq, EncState.mk.injEq, true_and, and_true]
      funext k
      rw [if_neg (by omega)]
  | succ cnt ih =>
    intro i0 s hin
    have hlt : op + i0 < oriData.length := by omega
    have hx : ivalue M (M.sub oriData[op + i0] medianValue) >>> rightShiftBits
        = transformed M oriData op medianValue rightShiftBits i0 := by
      simp [transformed, List.getD_eq_getElem?_getD, List.getElem?_eq_getElem hlt]
    simp only [encodeLoop, List.getElem?_eq_getElem hlt, hx]
    rw [ih (i0 + 1) _ (by omega)]
    rw [tList_succ]
    simp only [residOf, leadsOf, List.getLastD_cons, List.length_append, Option.some.injEq,
      EncState.mk.injEq]
    refine ⟨trivial, by omega, ?_, ?_⟩
    · funext k
      by_cases hk0 : k = i0
      · subst hk0
        rw [if_neg (by omega), store_same, if_pos (by omega)]
        simp
      · by_cases hk : i0 + 1 ≤ k ∧ k < i0 + 1 + cnt
        · rw [if_pos hk, if_pos (by omega)]
          have e : k - i0 = (k - (i0 + 1)) + 1 := by omega
          rw [e, List.getD_cons_succ]
        · rw [if_neg hk, if_neg (by omega), store_other _ _ _ _ hk0]
    · rw [writeBytes_append, Nat.add_assoc]

/-! ## The block encoder -/

/-- The result of the block encoder when the planned byte length is 2 or 3, in terms of the
leading counts and residual bytes of the transformed values. -/
theorem encoder_two_three {F : Type} (M : FloatSem F) (oriData : List F) (op nbEle : Nat)
    (absErrBound : F) (mem : Mem) (outputBytes : Nat) (lead0 : Nat → Nat)
    (medianValue radius : F) (sel : Nat → Nat → List Nat)
    (hin : op + nbEle ≤ oriData.length)
    (hsel : (reqBytesLengthOf (reqLengthOf M absErrBound radius medianValue) = 2 ∧ sel = midBytes2) ∨
      (reqBytesLengthOf (reqLengthOf M absErrBound radius medianValue) = 3 ∧ sel = midBytes3)) :
    SZx_compress_one_block_float_sw M oriData op nbEle absErrBound mem outputBytes lead0
        medianValue radius = some
      { outputBytes :=
          floatToBytes M
            (store
              (convertIntArray2ByteArray_fast_2b_args
                (fun k => if 0 ≤ k ∧ k < 0 + nbEle then
                    (leadsOf 0 (tList M oriData op (medianOf M absErrBound radius medianValue)
                      (rightShiftBitsOf (reqLengthOf M absErrBound radius medianValue)) 0 nbEle)).getD
                      (k - 0) 0
                  else lead0 k)
                nbEle
                (writeBytes mem (outputBytes + 1 + 4 + leadArraySize nbEle + 0)
                  (residOf sel 0 (tList M oriData op (medianOf M absErrBound radius medianValue)
                    (rightShiftBitsOf (reqLengthOf M absErrBound radius medianValue)) 0 nbEle)))
                (outputBytes + 1 + 4)).2
              (outputBytes + 0) (reqLengthOf M absErrBound radius medianValue % 256))
            (outputBytes + 1) (medianOf M absErrBound radius medianValue)
        outSize := 1 + 4 + leadArraySize nbEle
          + (0 + (residOf sel 0 (tList M oriData op (medianOf M absErrBound radius medianValue)
              (rightShiftBitsOf (reqLengthOf M absErrBound radius medianValue)) 0 nbEle)).length)
        leadNumberArray_int := fun k =>
          if 0 ≤ k ∧ k < 0 + nbEle then
            (leadsOf 0 (tList M oriData op (medianOf M absErrBound radius medianValue)
              (rightShiftBitsOf (reqLengthOf M absErrBound radius medianValue)) 0 nbEle)).getD
              (k - 0) 0
          else lead0 k
        s_actual_leadNumbers :=
          actualLeadLoop
            (fun k => if 0 ≤ k ∧ k < 0 + nbEle then
                (leadsOf 0 (tList M oriData op (medianOf M absErrBound radius medianValue)
                  (rightShiftBitsOf (reqLengthOf M absErrBound radius medianValue)) 0 nbEle)).getD
                  (k - 0) 0
              else lead0 k)
            (reqBytesLengthOf (reqLengthOf M absErrBound radius medianValue)) nbEle 0 0 } := by
  unfold SZx_compress_one_block_float_sw
  simp only [reqBytesLengthOf, reqLengthOf, medianOf, rightShiftBitsOf, leadArraySize] at hsel ⊢
  rcases hsel with ⟨h2, hs⟩ | ⟨h3, hs⟩
  · subst hs
    rw [if_pos h2, encodeLoop_spec M midBytes2 oriData op _ _ _ nbEle 0 _ (by omega)]
  · subst hs
    have h2 : ¬ ((if (computeReqLength_float M (M.toDouble absErrBound) (getExponent_float M radius)
        medianValue).1.toNat % 8 ≠ 0 then
        (computeReqLength_float M (M.toDouble absErrBound) (getExponent_float M radius)
          medianValue).1.toNat / 8 + 1
      else (computeReqLength_float M (M.toDouble absErrBound) (getExponent_float M radius)
          medianValue).1.toNat / 8) = 2) := by
      rw [h3]; decide
    rw [if_neg h2, if_pos h3, encodeLoop_spec M midBytes3 oriData op _ _ _ nbEle 0 _ (by omega)]

/-- The result of the block encoder when the planned byte length is neither 2 nor 3: no
element is visited. -/
theorem encoder_other {F : Type} (M : FloatSem F) (oriData : List F) (op nbEle : Nat)
    (absErrBound : F) (mem : Mem) (outputBytes : Nat) (lead0 : Nat → Nat)
    (medianValue radius : F)
    (h2 : reqBytesLengthOf (reqLengthOf M absErrBound radius medianValue) ≠ 2)
    (h3 : reqBytesLengthOf (reqLengthOf M absErrBound radius medianValue) ≠ 3) :
    SZx_compress_one_block_float_sw M oriData op nbEle absErrBound mem outputBytes lead0
        medianValue radius = some
      { outputBytes :=
          floatToBytes M
            (store
              (convertIntArray2ByteArray_fast_2b_args lead0 nbEle mem (outputBytes + 1 + 4)).2
              (outputBytes + 0) (reqLengthOf M absErrBound radius medianValue % 256))
            (outputBytes + 1) (medianOf M absErrBound radius medianValue)
        outSize := 1 + 4 + leadArraySize nbEle + 0
        leadNumberArray_int := lead0
        s_actual_leadNumbers :=
          actualLeadLoop lead0 (reqBytesLengthOf (reqLengthOf M absErrBound radius medianValue))
            nbEle 0 0 } := by
  unfold SZx_compress_one_block_float_sw
  simp only [reqBytesLengthOf, reqLengthOf, medianOf, rightShiftBitsOf, leadArraySize] at h2 h3 ⊢
  rw [if_neg h2, if_neg h3]

theorem reqLengthOf_range {F : Type} (M : FloatSem F) (absErrBound radius medianValue : F) :
    9 ≤ reqLengthOf M absErrBound radius medianValue ∧
    reqLengthOf M absErrBound radius medianValue ≤ 32 := by
  have h := computeReqLength_float_range M (M.toDouble absErrBound) (getExponent_float M radius)
    medianValue
  unfold reqLengthOf
  omega

/-- The planner resets the median only when it plans 32 bits. -/
theorem medianOf_eq {F : Type} (M : FloatSem F) (absErrBound radius medianValue : F)
    (h : reqLengthOf M absErrBound radius medianValue < 32) :
    medianOf M absErrBound radius medianValue = medianValue := by
  unfold reqLengthOf at h
  unfold medianOf
  rw [computeReqLength_float_snd]
  rw [computeReqLength_float_fst] at h
  rw [if_neg (by omega)]

theorem reqBytesLengthOf_cases (rl : Nat) (h9 : 9 ≤ rl) (h32 : rl ≤ 32) :
    (reqBytesLengthOf rl = 2 ↔ rl ≤ 16) ∧ (reqBytesLengthOf rl = 3 ↔ 17 ≤ rl ∧ rl ≤ 24) ∧
    (reqBytesLengthOf rl = 4 ↔ 25 ≤ rl) := by
  unfold reqBytesLengthOf
  split_ifs <;> omega

theorem transformed_lt {F : Type} (M : FloatSem F) (oriData : List F) (op : Nat) (medianValue : F)
    (rightShiftBits i : Nat) : transformed M oriData op medianValue rightShiftBits i < 2 ^ 32 := by
  unfold transformed ivalue
  rw [Nat.shiftRight_eq_div_pow]
  exact lt_of_le_of_lt (Nat.div_le_self _ _) (Nat.mod_lt _ (by norm_num))

theorem leadingNumOf_eq_min (d : Nat) (hd : d < 2 ^ 32) :
    leadingNumOf d = min 3 (zeroTopBytes d) := by
  unfold leadingNumOf zeroTopBytes byteOf
  simp only [Nat.shiftRight_eq_div_pow]
  norm_num at hd ⊢
  split_ifs <;> omega

/-- C10: when the planned byte length is 2 or 3 the block encoder returns, and for every
element index `i < n` the recorded leading count is `min 3 z`, where `z` is the number of most
significant zero bytes of `t_i XOR t_(i-1)`, with `t_i = bits(x_i - median) >> rightShiftBits`
and `t_(-1) = 0`; every recorded count is at most 3. -/
theorem leading_count_correct {F : Type} (M : FloatSem F) (oriData : List F) (op nbEle : Nat)
    (absErrBound : F) (mem : Mem) (outputBytes : Nat) (lead0 : Nat → Nat)
    (medianValue radius : F) (hin : op + nbEle ≤ oriData.length)
    (hreq : reqBytesLengthOf (reqLengthOf M absErrBound radius medianValue) = 2 ∨
      reqBytesLengthOf (reqLengthOf M absErrBound radius medianValue) = 3) :
    ∃ o, SZx_compress_one_block_float_sw M oriData op nbEle absErrBound mem outputBytes lead0
        medianValue radius = some o ∧
      ∀ i < nbEle,
        o.leadNumberArray_int i = min 3 (zeroTopBytes
          (transformed M oriData op medianValue
              (rightShiftBitsOf (reqLengthOf M absErrBound radius medianValue)) i
            ^^^ (if i = 0 then 0 else transformed M oriData op medianValue
              (rightShiftBitsOf (reqLengthOf M absErrBound radius medianValue)) (i - 1)))) ∧
        o.leadNumberArray_int i ≤ 3 := by
  have hr := reqLengthOf_range M absErrBound radius medianValue
  have hc := reqBytesLengthOf_cases _ hr.1 hr.2
  have hmed : medianOf M absErrBound radius medianValue = medianValue :=
    medianOf_eq M absErrBound radius medianValue (by
      rcases hreq with h | h
      · have := hc.1.mp h; omega
      · have := (hc.2.1.mp h).2; omega)
  have hsel : ∃ sel, (reqBytesLengthOf (reqLengthOf M absErrBound radius medianValue) = 2
        ∧ sel = midBytes2) ∨
      (reqBytesLengthOf (reqLengthOf M absErrBound radius medianValue) = 3 ∧ sel = midBytes3) := by
    rcases hreq with h | h
    · exact ⟨midBytes2, Or.inl ⟨h, rfl⟩⟩
    · exact ⟨midBytes3, Or.inr ⟨h, rfl⟩⟩
  obtain ⟨sel, hsel⟩ := hsel
  refine ⟨_, encoder_two_three M oriData op nbEle absErrBound mem outputBytes lead0 medianValue
    radius sel hin hsel, ?_⟩
  intro i hi
  simp only [hmed]
  rw [if_pos (by omega)]
  rw [leadsOf_getD _ _ _ (by rw [tList_length]; omega)]
  simp only [Nat.sub_zero]
  rw [tList_getD _ _ _ _ _ _ _ _ hi, Nat.zero_add]
  have hprev : (if i = 0 then 0 else
      (tList M oriData op medianValue
        (rightShiftBitsOf (reqLengthOf M absErrBound radius medianValue)) 0 nbEle).getD (i - 1) 0)
      = (if i = 0 then 0 else transformed M oriData op medianValue
        (rightShiftBitsOf (reqLengthOf M absErrBound radius medianValue)) (i - 1)) := by
    by_cases hi0 : i = 0
    · simp [hi0]
    · rw [if_neg hi0, if_neg hi0, tList_getD _ _ _ _ _ _ _ _ (by omega), Nat.zero_add]
  rw [hprev]
  have hlt : (transformed M oriData op medianValue
        (rightShiftBitsOf (reqLengthOf M absErrBound radius medianValue)) i
      ^^^ (if i = 0 then 0 else transformed M oriData op medianValue
        (rightShiftBitsOf (reqLengthOf M absErrBound radius medianValue)) (i - 1))) < 2 ^ 32 := by
    apply Nat.xor_lt_two_pow (transformed_lt _ _ _ _ _ _)
    split_ifs
    · norm_num
    · exact transformed_lt _ _ _ _ _ _
  rw [leadingNumOf_eq_min _ hlt]
  exact ⟨rfl, Nat.min_le_left _ _⟩

/-! ## Instances on concrete inputs -/

/-- Witness for C3: ten samples in blocks of four with error bound 0.5 (two full blocks and a
trailing block of two). -/
theorem classification_correct_witness :
    1 ≤ 4 ∧
    ∃ s, computeStateMedianRadius_float ieee32
        [0xC1800000, 0x41800000, 0x41000000, 0, 0, 0, 0, 0, 0xC1800000, 0x41800000]
        0x3F000000 4 (fun _ => 9) (fun _ => 0) (fun _ => 0) = some s ∧
      ∀ i < actualNBBlocks
          [0xC1800000, 0x41800000, 0x41000000, 0, 0, 0, 0, 0, 0xC1800000, 0x41800000].length 4,
        (s.stateArray i = 0 ↔ ieee32.le (s.radiusArray i) 0x3F000000 = true) ∧
        (s.stateArray i = 1 ↔ ieee32.le (s.radiusArray i) 0x3F000000 = false) :=
  ⟨by decide, classification_correct ieee32
    [0xC1800000, 0x41800000, 0x41000000, 0, 0, 0, 0, 0, 0xC1800000, 0x41800000]
    0x3F000000 4 (fun _ => 9) (fun _ => 0) (fun _ => 0) (by decide)⟩

/-- Witness for C5: the same ten samples; one constant block out of three. -/
theorem constant_count_correct_witness :
    1 ≤ 4 ∧
    ∃ s, computeStateMedianRadius_float ieee32
        [0xC1800000, 0x41800000, 0x41000000, 0, 0, 0, 0, 0, 0xC1800000, 0x41800000]
        0x3F000000 4 (fun _ => 9) (fun _ => 0) (fun _ => 0) = some s ∧
      s.nbConstantBlocks = (List.range (actualNBBlocks
          [0xC1800000, 0x41800000, 0x41000000, 0, 0, 0, 0, 0, 0xC1800000, 0x41800000].length
          4)).countP (fun i => decide (s.stateArray i = 0)) ∧
      (List.range (actualNBBlocks
          [0xC1800000, 0x41800000, 0x41000000, 0, 0, 0, 0, 0, 0xC1800000, 0x41800000].length
          4)).countP (fun i => decide (s.stateArray i = 1))
        = actualNBBlocks
          [0xC1800000, 0x41800000, 0x41000000, 0, 0, 0, 0, 0, 0xC1800000, 0x41800000].length 4
          - s.nbConstantBlocks ∧
      s.nbConstantBlocks + (List.range (actualNBBlocks
          [0xC1800000, 0x41800000, 0x41000000, 0, 0, 0, 0, 0, 0xC1800000, 0x41800000].length
          4)).countP (fun i => decide (s.stateArray i = 1))
        = actualNBBlocks
          [0xC1800000, 0x41800000, 0x41000000, 0, 0, 0, 0, 0, 0xC1800000, 0x41800000].length 4 :=
  ⟨by decide, constant_count_correct ieee32
    [0xC1800000, 0x41800000, 0x41000000, 0, 0, 0, 0, 0, 0xC1800000, 0x41800000]
    0x3F000000 4 (fun _ => 9) (fun _ => 0) (fun _ => 0) (by decide)⟩

/-- Witness for C10: the block -16, 16, 8 with median 0, radius 16 and error bound 0.001
(24 bits, three bytes per value). -/
theorem leading_count_correct_witness :
    0 + 3 ≤ [0xC1800000, 0x41800000, 0x41000000].length ∧
    reqBytesLengthOf (reqLengthOf ieee32 0x3A83126F 0x41800000 0) = 3 ∧
    ∃ o, SZx_compress_one_block_float_sw ieee32 [0xC1800000, 0x41800000, 0x41000000] 0 3
        0x3A83126F (fun _ => 0) 0 (fun _ => 0) 0 0x41800000 = some o ∧
      ∀ i < 3,
        o.leadNumberArray_int i = min 3 (zeroTopBytes
          (transformed ieee32 [0xC1800000, 0x41800000, 0x41000000] 0 0
              (rightShiftBitsOf (reqLengthOf ieee32 0x3A83126F 0x41800000 0)) i
            ^^^ (if i = 0 then 0 else transformed ieee32 [0xC1800000, 0x41800000, 0x41000000] 0 0
              (rightShiftBitsOf (reqLengthOf ieee32 0x3A83126F 0x41800000 0)) (i - 1)))) ∧
        o.leadNumberArray_int i ≤ 3 :=
  ⟨by decide, by decide,
    leading_count_correct ieee32 [0xC1800000, 0x41800000, 0x41000000] 0 3 0x3A83126F
      (fun _ => 0) 0 (fun _ => 0) 0 0x41800000 (by decide) (Or.inr (by decide))⟩

/-! ## The stream assembler: output size -/

theorem toRat_one : IEEE.toRat 0x3F800000 = 1 := by
  norm_num [IEEE.toRat, IEEE.sval, IEEE.mag, IEEE.sign, IEEE.expo, IEEE.mant]

theorem toRat_two : IEEE.toRat 0x40000000 = 2 := by
  norm_num [IEEE.toRat, IEEE.sval, IEEE.mag, IEEE.sign, IEEE.expo, IEEE.mant]

theorem toRat_errBound : IEEE.toRat 0x3A83126F = 8589935 / 2 ^ 33 := by
  norm_num [IEEE.toRat, IEEE.sval, IEEE.mag, IEEE.sign, IEEE.expo, IEEE.mant]

set_option maxRecDepth 8000 in
/-- C1, the code at Scenario C: the samples 0, 100, 1, 99 and 0, 100, 2, 99 with error bound
0.001 both form one variable block with median 50 and radius 50, for which the encoder plans
25 bits, that is four bytes per value; it then visits no element, so that on the same buffer
and scratch the two blocks get the same encoding, and no decoder whatsoever can return values
within 0.001 of both 1 and 2 at index 2. -/
theorem scenarioC_not_decodable (mem : Mem) (outputBytes : Nat) (lead0 : Nat → Nat) :
    (computeStateMedianRadius_float ieee32 [0, 0x42C80000, 0x3F800000, 0x42C60000] 0x3A83126F 4
        (fun _ => 0) (fun _ => 0) (fun _ => 0)).map
        (fun s => (s.stateArray 0, s.medianArray 0, s.radiusArray 0))
      = some (1, 0x42480000, 0x42480000) ∧
    (computeStateMedianRadius_float ieee32 [0, 0x42C80000, 0x40000000, 0x42C60000] 0x3A83126F 4
        (fun _ => 0) (fun _ => 0) (fun _ => 0)).map
        (fun s => (s.stateArray 0, s.medianArray 0, s.radiusArray 0))
      = some (1, 0x42480000, 0x42480000) ∧
    reqLengthOf ieee32 0x3A83126F 0x42480000 0x42480000 = 25 ∧
    reqBytesLengthOf (reqLengthOf ieee32 0x3A83126F 0x42480000 0x42480000) = 4 ∧
    (SZx_compress_one_block_float_sw ieee32 [0, 0x42C80000, 0x3F800000, 0x42C60000] 0 4
        0x3A83126F mem outputBytes lead0 0x42480000 0x42480000).isSome = true ∧
    SZx_compress_one_block_float_sw ieee32 [0, 0x42C80000, 0x3F800000, 0x42C60000] 0 4
        0x3A83126F mem outputBytes lead0 0x42480000 0x42480000
      = SZx_compress_one_block_float_sw ieee32 [0, 0x42C80000, 0x40000000, 0x42C60000] 0 4
        0x3A83126F mem outputBytes lead0 0x42480000 0x42480000 ∧
    ∀ decode : Option BlockOut → Nat → ℚ,
      ¬ (|decode (SZx_compress_one_block_float_sw ieee32 [0, 0x42C80000, 0x3F800000, 0x42C60000]
              0 4 0x3A83126F mem outputBytes lead0 0x42480000 0x42480000) 2
            - IEEE.toRat 0x3F800000| ≤ IEEE.toRat 0x3A83126F ∧
         |decode (SZx_compress_one_block_float_sw ieee32 [0, 0x42C80000, 0x40000000, 0x42C60000]
              0 4 0x3A83126F mem outputBytes lead0 0x42480000 0x42480000) 2
            - IEEE.toRat 0x40000000| ≤ IEEE.toRat 0x3A83126F) := by
  have h2 : reqBytesLengthOf (reqLengthOf ieee32 0x3A83126F 0x42480000 0x42480000) ≠ 2 := by
    decide
  have h3 : reqBytesLengthOf (reqLengthOf ieee32 0x3A83126F 0x42480000 0x42480000) ≠ 3 := by
    decide
  have hA := encoder_other ieee32 [0, 0x42C80000, 0x3F800000, 0x42C60000] 0 4 0x3A83126F mem
    outputBytes lead0 0x42480000 0x42480000 h2 h3
  have hB := encoder_other ieee32 [0, 0x42C80000, 0x40000000, 0x42C60000] 0 4 0x3A83126F mem
    outputBytes lead0 0x42480000 0x42480000 h2 h3
  refine ⟨by decide, by decide, by decide, by decide, by rw [hA]; rfl, by rw [hA, hB], ?_⟩
  intro decode
  rw [hA, hB, toRat_one, toRat_two, toRat_errBound]
  rintro ⟨ha, hb⟩
  have ha2 := (abs_le.mp ha).2
  have hb1 := (abs_le.mp hb).1
  norm_num at ha2 hb1
  linarith

set_option maxRecDepth 8000 in
/-- C2, the code at a block of three-byte values: the samples -16, 16, 8 and
-16, 16, 8.06225586 (pattern 0x4100FF00) with error bound 0.001 both form a block with median
0 and radius 16, for which the encoder plans 24 bits, that is three bytes per value; the two
blocks get the same 14 bytes (bit length, median, packed leading counts 0, 0, 1, residual
bytes), although byte 1 of the third transformed value is 0 in the first block and 255 in
the second. -/
theorem three_byte_encoding_collides :
    (computeStateMedianRadius_float ieee32 [0xC1800000, 0x41800000, 0x41000000] 0x3A83126F 4
        (fun _ => 0) (fun _ => 0) (fun _ => 0)).map
        (fun s => (s.stateArray 0, s.medianArray 0, s.radiusArray 0))
      = some (1, 0, 0x41800000) ∧
    (computeStateMedianRadius_float ieee32 [0xC1800000, 0x41800000, 0x4100FF00] 0x3A83126F 4
        (fun _ => 0) (fun _ => 0) (fun _ => 0)).map
        (fun s => (s.stateArray 0, s.medianArray 0, s.radiusArray 0))
      = some (1, 0, 0x41800000) ∧
    reqBytesLengthOf (reqLengthOf ieee32 0x3A83126F 0x41800000 0) = 3 ∧
    rightShiftBitsOf (reqLengthOf ieee32 0x3A83126F 0x41800000 0) = 0 ∧
    (SZx_compress_one_block_float_sw ieee32 [0xC1800000, 0x41800000, 0x41000000] 0 3
        0x3A83126F (fun _ => 0) 0 (fun _ => 0) 0 0x41800000).map
        (fun o => readBytes o.outputBytes 0 o.outSize)
      = some [24, 0, 0, 0, 0, 4, 128, 193, 0, 128, 65, 0, 0, 65] ∧
    (SZx_compress_one_block_float_sw ieee32 [0xC1800000, 0x41800000, 0x4100FF00] 0 3
        0x3A83126F (fun _ => 0) 0 (fun _ => 0) 0 0x41800000).map
        (fun o => readBytes o.outputBytes 0 o.outSize)
      = some [24, 0, 0, 0, 0, 4, 128, 193, 0, 128, 65, 0, 0, 65] ∧
    byteOf (transformed ieee32 [0xC1800000, 0x41800000, 0x41000000] 0 0 0 2) 1 = 0 ∧
    byteOf (transformed ieee32 [0xC1800000, 0x41800000, 0x4100FF00] 0 0 0 2) 1 = 255 := by
  refine ⟨by decide, by decide, by decide, by decide, by decide, by decide, by decide, by decide⟩

/-! ## The code at inputs where it departs from the format -/

set_option maxRecDepth 8000 in
/-- C12, the code at a block of three-byte values with a repeated sample: the samples
-16, 16, 16 with error bound 0.001 form a variable block with median 0 and radius 16, for
which the encoder plans 24 bits, three bytes per value. The recorded leading counts are
0, 0, 3 and the closing loop finds `s_actual_leadNumbers = 3`, yet the encoder appends
3 + 3 + 2 = 8 residual bytes (the third element, with count 3, contributes bytes 0 and 1)
and not 3 * 3 - 3 = 6. -/
theorem three_byte_count_three_stores_two :
    (computeStateMedianRadius_float ieee32 [0xC1800000, 0x41800000, 0x41800000] 0x3A83126F 4
        (fun _ => 0) (fun _ => 0) (fun _ => 0)).map
        (fun s => (s.stateArray 0, s.medianArray 0, s.radiusArray 0))
      = some (1, 0, 0x41800000) ∧
    reqBytesLengthOf (reqLengthOf ieee32 0x3A83126F 0x41800000 0) = 3 ∧
    (SZx_compress_one_block_float_sw ieee32 [0xC1800000, 0x41800000, 0x41800000] 0 3
        0x3A83126F (fun _ => 0) 0 (fun _ => 7) 0 0x41800000).map
        (fun o => (o.outSize, o.s_actual_leadNumbers,
          [o.leadNumberArray_int 0, o.leadNumberArray_int 1, o.leadNumberArray_int 2],
          readBytes o.outputBytes (1 + 4 + leadArraySize 3) (o.outSize - (1 + 4 + leadArraySize 3))))
      = some (14, 3, [0, 0, 3], [128, 193, 0, 128, 65, 0, 0, 0]) ∧
    residLength ieee32 [0xC1800000, 0x41800000, 0x41800000] 0 3 0x3A83126F 0 0x41800000 = 8 ∧
    residLength ieee32 [0xC1800000, 0x41800000, 0x41800000] 0 3 0x3A83126F 0 0x41800000
      ≠ 3 * 3 - 3 := by
  refine ⟨by decide, by decide, by decide, by decide, by decide⟩

set_option maxRecDepth 20000 in
/-- C13, the code at Scenario C: for the block 0, 100, 1, 99 with error bound 0.001, median 50
and radius 50 (25 bits, four bytes per value) two runs that differ only in the prior contents
of the scratch array (all 0 against all 3) report the same size 6 but emit different bytes:
byte 5, the packed leading counts, is 0 in one run and 255 in the other. The same holds for
the whole stream produced by `SZx_compress_float`, in its byte 28. -/
theorem scenarioC_output_depends_on_scratch :
    reqBytesLengthOf (reqLengthOf ieee32 0x3A83126F 0x42480000 0x42480000) = 4 ∧
    (SZx_compress_one_block_float_sw ieee32 [0, 0x42C80000, 0x3F800000, 0x42C60000] 0 4
        0x3A83126F (fun _ => 0) 0 (fun _ => 0) 0x42480000 0x42480000).map
        (fun o => (o.outSize, readBytes o.outputBytes 0 o.outSize))
      = some (6, [25, 0, 0, 72, 66, 0]) ∧
    (SZx_compress_one_block_float_sw ieee32 [0, 0x42C80000, 0x3F800000, 0x42C60000] 0 4
        0x3A83126F (fun _ => 0) 0 (fun _ => 3) 0x42480000 0x42480000).map
        (fun o => (o.outSize, readBytes o.outputBytes 0 o.outSize))
      = some (6, [25, 0, 0, 72, 66, 255]) ∧
    (SZx_compress_float ieee32 [0, 0x42C80000, 0x3F800000, 0x42C60000] 0x3A83126F 4
        ⟨fun _ => 0, fun _ => 0, fun _ => 0, fun _ => 0, fun _ => 0⟩).map
        (fun c => (c.outSize, readBytes c.outputBytes 0 c.outSize))
      = some (29, [0, 1, 1, 1, 0, 0, 0, 0, 0, 0, 0, 4, 0, 0, 0, 0, 0, 0, 0, 0, 6, 0, 128,
          25, 0, 0, 72, 66, 0]) ∧
    (SZx_compress_float ieee32 [0, 0x42C80000, 0x3F800000, 0x42C60000] 0x3A83126F 4
        ⟨fun _ => 0, fun _ => 3, fun _ => 0, fun _ => 0, fun _ => 0⟩).map
        (fun c => (c.outSize, readBytes c.outputBytes 0 c.outSize))
      = some (29, [0, 1, 1, 1, 0, 0, 0, 0, 0, 0, 0, 4, 0, 0, 0, 0, 0, 0, 0, 0, 6, 0, 128,
          25, 0, 0, 72, 66, 255]) := by
  refine ⟨by decide, by decide, by decide, by decide, by decide⟩

set_option maxRecDepth 20000 in
/-- C15, the code at Scenario A: the four samples 1, 1, 1, 1 with block size 4 and error
bound 0.01 form one constant block; the returned size is 25 (header 20, bitmap 1, median 4),
more than the 4 * 4 = 16 bytes allocated for the output buffer, and all 25 bytes are
written. -/
theorem scenarioA_exceeds_buffer :
    (SZx_compress_float ieee32 [0x3F800000, 0x3F800000, 0x3F800000, 0x3F800000] 0x3C23D70A 4
        ⟨fun _ => 238, fun _ => 0, fun _ => 0, fun _ => 0, fun _ => 0⟩).map
        (fun c => (c.outSize, readBytes c.outputBytes 0 c.outSize))
      = some (25, [0, 1, 1, 1, 0, 0, 0, 0, 0, 0, 0, 4, 0, 0, 0, 0, 0, 0, 0, 1, 0,
          0, 0, 128, 63]) ∧
    4 * [0x3F800000, 0x3F800000, 0x3F800000, 0x3F800000].length < 25 := by
  refine ⟨by decide, by decide⟩

/-! ## Layout of an encoded block -/

theorem leadArraySize_eq (n : Nat) : leadArraySize n = (n + 3) / 4 := by
  unfold leadArraySize
  split <;> omega

/-- The result of the block encoder on a block that lies inside the sample array. -/
theorem encoder_eq {F : Type} (M : FloatSem F) (oriData : List F) (op nbEle : Nat)
    (absErrBound : F) (mem : Mem) (outputBytes : Nat) (lead0 : Nat → Nat)
    (medianValue radius : F) (hin : op + nbEle ≤ oriData.length) :
    SZx_compress_one_block_float_sw M oriData op nbEle absErrBound mem outputBytes lead0
        medianValue radius = some
      { outputBytes :=
          floatToBytes M
            (store
              (convertIntArray2ByteArray_fast_2b_args
                (blockLeads M oriData op nbEle absErrBound medianValue radius lead0) nbEle
                (writeBytes mem (outputBytes + 1 + 4 + leadArraySize nbEle)
                  (blockResid M oriData op nbEle absErrBound medianValue radius))
                (outputBytes + 1 + 4)).2
              (outputBytes + 0) (reqLengthOf M absErrBound radius medianValue % 256))
            (outputBytes + 1) (medianOf M absErrBound radius medianValue)
        outSize := 1 + 4 + leadArraySize nbEle
          + (blockResid M oriData op nbEle absErrBound medianValue radius).length
        leadNumberArray_int := blockLeads M oriData op nbEle absErrBound medianValue radius lead0
        s_actual_leadNumbers :=
          actualLeadLoop (blockLeads M oriData op nbEle absErrBound medianValue radius lead0)
            (reqBytesLengthOf (reqLengthOf M absErrBound radius medianValue)) nbEle 0 0 } := by
  by_cases h2 : reqBytesLengthOf (reqLengthOf M absErrBound radius medianValue) = 2
  · rw [encoder_two_three M oriData op nbEle absErrBound mem outputBytes lead0 medianValue radius
      midBytes2 hin (Or.inl ⟨h2, rfl⟩)]
    have hl : (fun k => if 0 ≤ k ∧ k < 0 + nbEle then
          (leadsOf 0 (tList M oriData op (medianOf M absErrBound radius medianValue)
            (rightShiftBitsOf (reqLengthOf M absErrBound radius medianValue)) 0 nbEle)).getD
            (k - 0) 0
        else lead0 k)
        = blockLeads M oriData op nbEle absErrBound medianValue radius lead0 := by
      funext k
      unfold blockLeads
      by_cases hk : k < nbEle
      · rw [if_pos ⟨Nat.zero_le k, by omega⟩, if_pos ⟨Or.inl h2, hk⟩, Nat.sub_zero]
      · rw [if_neg (by omega), if_neg (by tauto)]
    have hr : residOf midBytes2 0 (tList M oriData op (medianOf M absErrBound radius medianValue)
          (rightShiftBitsOf (reqLengthOf M absErrBound radius medianValue)) 0 nbEle)
        = blockResid M oriData op nbEle absErrBound medianValue radius := by
      unfold blockResid
      rw [if_pos h2]
    rw [hl, hr, Nat.add_zero, Nat.zero_add]
  · by_cases h3 : reqBytesLengthOf (reqLengthOf M absErrBound radius medianValue) = 3
    · rw [encoder_two_three M oriData op nbEle absErrBound mem outputBytes lead0 medianValue
        radius midBytes3 hin (Or.inr ⟨h3, rfl⟩)]
      have hl : (fun k => if 0 ≤ k ∧ k < 0 + nbEle then
            (leadsOf 0 (tList M oriData op (medianOf M absErrBound radius medianValue)
              (rightShiftBitsOf (reqLengthOf M absErrBound radius medianValue)) 0 nbEle)).getD
              (k - 0) 0
          else lead0 k)
          = blockLeads M oriData op nbEle absErrBound medianValue radius lead0 := by
        funext k
        unfold blockLeads
        by_cases hk : k < nbEle
        · rw [if_pos ⟨Nat.zero_le k, by omega⟩, if_pos ⟨Or.inr h3, hk⟩, Nat.sub_zero]
        · rw [if_neg (by omega), if_neg (by tauto)]
      have hr : residOf midBytes3 0 (tList M oriData op
            (medianOf M absErrBound radius medianValue)
            (rightShiftBitsOf (reqLengthOf M absErrBound radius medianValue)) 0 nbEle)
          = blockResid M oriData op nbEle absErrBound medianValue radius := by
        unfold blockResid
        rw [if_neg h2, if_pos h3]
      rw [hl, hr, Nat.add_zero, Nat.zero_add]
    · rw [encoder_other M oriData op nbEle absErrBound mem outputBytes lead0 medianValue radius
        h2 h3]
      have hl : lead0 = blockLeads M oriData op nbEle absErrBound medianValue radius lead0 := by
        funext k
        unfold blockLeads
        rw [if_neg (by tauto)]
      have hr : blockResid M oriData op nbEle absErrBound medianValue radius = [] := by
        unfold blockResid
        rw [if_neg h2, if_neg h3]
      rw [← hl, hr]
      rfl

theorem floatToBytes_inside {F : Type} (M : FloatSem F) (m : Mem) (b : Nat) (num : F) (k : Nat)
    (hk : k < 4) : floatToBytes M m b num (b + k) = byteOf (ivalue M num) k := by
  unfold floatToBytes
  rw [writeBytes_inside _ _ _ k (by simpa using hk)]
  interval_cases k <;> rfl

theorem floatToBytes_outside {F : Type} (M : FloatSem F) (m : Mem) (b : Nat) (num : F) (a : Nat)
    (ha : a < b ∨ b + 4 ≤ a) : floatToBytes M m b num a = m a := by
  unfold floatToBytes
  exact writeBytes_outside _ _ _ _ (by simpa using ha)

theorem pack2b_inside (t : Nat → Nat) (L : Nat) (mem : Mem) (result j : Nat)
    (hj : j < (L + 3) / 4) :
    (convertIntArray2ByteArray_fast_2b_args t L mem result).2 (result + j) = packed2b t L j := by
  rw [(pack2b_mem t L mem result).2]
  unfold packed2b
  by_cases hfull : j < L / 4
  · rw [if_pos (by omega), if_pos hfull, Nat.add_sub_cancel_left]
  · rw [if_neg (by omega), if_neg hfull, if_pos ⟨by omega, by omega⟩]

theorem pack2b_outside (t : Nat → Nat) (L : Nat) (mem : Mem) (result a : Nat)
    (ha : a < result ∨ result + (L + 3) / 4 ≤ a) :
    (convertIntArray2ByteArray_fast_2b_args t L mem result).2 a = mem a := by
  rw [(pack2b_mem t L mem result).2, if_neg (by omega), if_neg (by omega)]

/-- Contents of the buffer after the stores of one block: bit length, median, packed leading
counts, residual bytes; nothing else is touched. -/
theorem block_mem_layout {F : Type} (M : FloatSem F) (mem : Mem) (out n : Nat)
    (lead : Nat → Nat) (resid : List Nat) (rl : Nat) (med : F) (hrl : rl < 256) :
    floatToBytes M (store (convertIntArray2ByteArray_fast_2b_args lead n
        (writeBytes mem (out + 1 + 4 + leadArraySize n) resid) (out + 1 + 4)).2
        (out + 0) (rl % 256)) (out + 1) med out = rl ∧
    (∀ k < 4, floatToBytes M (store (convertIntArray2ByteArray_fast_2b_args lead n
        (writeBytes mem (out + 1 + 4 + leadArraySize n) resid) (out + 1 + 4)).2
        (out + 0) (rl % 256)) (out + 1) med (out + 1 + k) = byteOf (ivalue M med) k) ∧
    (∀ j < (n + 3) / 4, floatToBytes M (store (convertIntArray2ByteArray_fast_2b_args lead n
        (writeBytes mem (out + 1 + 4 + leadArraySize n) resid) (out + 1 + 4)).2
        (out + 0) (rl % 256)) (out + 1) med (out + 5 + j) = packed2b lead n j) ∧
    (∀ j < resid.length, floatToBytes M (store (convertIntArray2ByteArray_fast_2b_args lead n
        (writeBytes mem (out + 1 + 4 + leadArraySize n) resid) (out + 1 + 4)).2
        (out + 0) (rl % 256)) (out + 1) med (out + 5 + (n + 3) / 4 + j) = resid.getD j 0) ∧
    (∀ a, (a < out ∨ out + (1 + 4 + (n + 3) / 4 + resid.length) ≤ a) →
      floatToBytes M (store (convertIntArray2ByteArray_fast_2b_args lead n
        (writeBytes mem (out + 1 + 4 + leadArraySize n) resid) (out + 1 + 4)).2
        (out + 0) (rl % 256)) (out + 1) med a = mem a) := by
  rw [leadArraySize_eq]
  refine ⟨?_, ?_, ?_, ?_, ?_⟩
  · rw [floatToBytes_outside _ _ _ _ _ (by omega)]
    simp only [Nat.add_zero, store_same]
    exact Nat.mod_eq_of_lt hrl
  · intro k hk
    exact floatToBytes_inside M _ _ _ k hk
  · intro j hj
    rw [floatToBytes_outside _ _ _ _ _ (by omega), store_other _ _ _ _ (by omega),
      show out + 5 + j = out + 1 + 4 + j by omega, pack2b_inside _ _ _ _ _ hj]
  · intro j hj
    rw [floatToBytes_outside _ _ _ _ _ (by omega), store_other _ _ _ _ (by omega),
      pack2b_outside _ _ _ _ _ (by omega),
      show out + 5 + (n + 3) / 4 + j = out + 1 + 4 + (n + 3) / 4 + j by omega,
      writeBytes_inside _ _ _ j hj]
    simp [List.getD_eq_getElem?_getD, List.getElem?_eq_getElem hj]
  · intro a ha
    rw [floatToBytes_outside _ _ _ _ _ (by omega), store_other _ _ _ _ (by omega),
      pack2b_outside _ _ _ _ _ (by omega), writeBytes_outside _ _ _ _ (by omega)]

theorem packed2b_field (t : Nat → Nat) (L : Nat) (ht : ∀ i < L, t i ≤ 3) :
    ∀ i < L, (packed2b t L (i / 4) >>> (6 - 2 * (i % 4))) % 4 = t i := by
  intro i hi
  unfold packed2b
  by_cases hfull : i / 4 < L / 4
  · rw [if_pos hfull]
    have := pack2bByte_field t (4 * (i / 4)) (by intro k hk; exact ht _ (by omega))
      (i % 4) (by omega)
    rw [this]
    congr 1
    omega
  · have hq : i / 4 = L / 4 := by
      have : i / 4 ≤ L / 4 := Nat.div_le_div_right (by omega)
      omega
    rw [if_neg hfull]
    have := (pack2bTail_field t (4 * (L / 4)) (L % 4) (by omega)
      (by intro k hk; exact ht _ (by omega))).1 (i % 4) (by omega)
    rw [this]
    congr 1
    omega

theorem leadingNumOf_le (d : Nat) : leadingNumOf d ≤ 3 := by
  unfold leadingNumOf
  split_ifs <;> omega

theorem blockLeads_le {F : Type} (M : FloatSem F) (oriData : List F) (op nbEle : Nat)
    (absErrBound medianValue radius : F) (lead0 : Nat → Nat)
    (hreq : reqBytesLengthOf (reqLengthOf M absErrBound radius medianValue) = 2 ∨
      reqBytesLengthOf (reqLengthOf M absErrBound radius medianValue) = 3) :
    ∀ i < nbEle, blockLeads M oriData op nbEle absErrBound medianValue radius lead0 i ≤ 3 := by
  intro i hi
  unfold blockLeads
  rw [if_pos ⟨hreq, hi⟩, leadsOf_getD _ _ _ (by rw [tList_length]; exact hi)]
  exact leadingNumOf_le _

/-- Layout of the output of the block encoder on a block inside the sample array. -/
theorem encoder_layout {F : Type} (M : FloatSem F) (oriData : List F) (op nbEle : Nat)
    (absErrBound : F) (mem : Mem) (outputBytes : Nat) (lead0 : Nat → Nat)
    (medianValue radius : F) (hin : op + nbEle ≤ oriData.length) :
    ∃ o, SZx_compress_one_block_float_sw M oriData op nbEle absErrBound mem outputBytes lead0
        medianValue radius = some o ∧
      o.outSize = 1 + 4 + (nbEle + 3) / 4
        + (blockResid M oriData op nbEle absErrBound medianValue radius).length ∧
      o.leadNumberArray_int = blockLeads M oriData op nbEle absErrBound medianValue radius lead0 ∧
      o.outputBytes outputBytes = reqLengthOf M absErrBound radius medianValue ∧
      (∀ k < 4, o.outputBytes (outputBytes + 1 + k)
        = byteOf (ivalue M (medianOf M absErrBound radius medianValue)) k) ∧
      (∀ j < (nbEle + 3) / 4, o.outputBytes (outputBytes + 5 + j)
        = packed2b (blockLeads M oriData op nbEle absErrBound medianValue radius lead0) nbEle j) ∧
      (∀ j < (blockResid M oriData op nbEle absErrBound medianValue radius).length,
        o.outputBytes (outputBytes + 5 + (nbEle + 3) / 4 + j)
          = (blockResid M oriData op nbEle absErrBound medianValue radius).getD j 0) ∧
      (∀ a, (a < outputBytes ∨ outputBytes + (1 + 4 + (nbEle + 3) / 4
          + (blockResid M oriData op nbEle absErrBound medianValue radius).length) ≤ a) →
        o.outputBytes a = mem a) := by
  have hr := reqLengthOf_range M absErrBound radius medianValue
  obtain ⟨h1, h2, h3, h4, h5⟩ := block_mem_layout M mem outputBytes nbEle
    (blockLeads M oriData op nbEle absErrBound medianValue radius lead0)
    (blockResid M oriData op nbEle absErrBound medianValue radius)
    (reqLengthOf M absErrBound radius medianValue)
    (medianOf M absErrBound radius medianValue) (by omega)
  refine ⟨_, encoder_eq M oriData op nbEle absErrBound mem outputBytes lead0 medianValue radius
    hin, ?_, rfl, h1, h2, h3, h4, h5⟩
  simp only [leadArraySize_eq]

/-- Layout of an encoded block: on every block of `n` elements inside the sample array the
block encoder returns and lays its output out, from the offset `outputBytes`, as:
byte 0 = `reqLength`; bytes 1..4 = the
bytes of the median in effect after the precision planner; bytes 5..5+ceil(n/4)-1 = the
two-bit packing of the `n` entries of `leadNumberArray_int` (value `i` in the field at bits
`7 - 2*(i mod 4)`, `6 - 2*(i mod 4)` of byte `i / 4` whenever the entries are at most 3, which
they are when the byte length is 2 or 3); then at once the residual bytes in element order.
The reported size is 1 + 4 + ceil(n/4) + the number of residual bytes, and no byte outside
these is written. -/
theorem block_output_layout {F : Type} (M : FloatSem F) (oriData : List F) (op nbEle : Nat)
    (absErrBound : F) (mem : Mem) (outputBytes : Nat) (lead0 : Nat → Nat)
    (medianValue radius : F) (hin : op + nbEle ≤ oriData.length) :
    ∃ o, SZx_compress_one_block_float_sw M oriData op nbEle absErrBound mem outputBytes lead0
        medianValue radius = some o ∧
      o.outputBytes outputBytes = reqLengthOf M absErrBound radius medianValue ∧
      (∀ k < 4, o.outputBytes (outputBytes + 1 + k)
        = byteOf (ivalue M (medianOf M absErrBound radius medianValue)) k) ∧
      (∀ j < (nbEle + 3) / 4,
        o.outputBytes (outputBytes + 5 + j) = packed2b o.leadNumberArray_int nbEle j) ∧
      ((∀ i < nbEle, o.leadNumberArray_int i ≤ 3) → ∀ i < nbEle,
        (o.outputBytes (outputBytes + 5 + i / 4) >>> (6 - 2 * (i % 4))) % 4
          = o.leadNumberArray_int i) ∧
      ((reqBytesLengthOf (reqLengthOf M absErrBound radius medianValue) = 2 ∨
          reqBytesLengthOf (reqLengthOf M absErrBound radius medianValue) = 3) →
        ∀ i < nbEle, o.leadNumberArray_int i ≤ 3) ∧
      (∀ j < (blockResid M oriData op nbEle absErrBound medianValue radius).length,
        o.outputBytes (outputBytes + 5 + (nbEle + 3) / 4 + j)
          = (blockResid M oriData op nbEle absErrBound medianValue radius).getD j 0) ∧
      o.outSize = 1 + 4 + (nbEle + 3) / 4
        + (blockResid M oriData op nbEle absErrBound medianValue radius).length ∧
      (∀ a, (a < outputBytes ∨ outputBytes + o.outSize ≤ a) → o.outputBytes a = mem a) := by
  obtain ⟨o, ho, hsz, hlead, h1, h2, h3, h4, h5⟩ := encoder_layout M oriData op nbEle absErrBound
    mem outputBytes lead0 medianValue radius hin
  refine ⟨o, ho, h1, h2, ?_, ?_, ?_, h4, hsz, ?_⟩
  · intro j hj
    rw [hlead]
    exact h3 j hj
  · intro hle i hi
    rw [h3 (i / 4) (by omega), ← hlead]
    exact packed2b_field o.leadNumberArray_int nbEle hle i hi
  · intro hreq
    rw [hlead]
    exact blockLeads_le M oriData op nbEle absErrBound medianValue radius lead0 hreq
  · intro a ha
    rw [hsz] at ha
    exact h5 a ha

/-- The layout at a concrete block: the block -16, 16, 8 with median 0, radius 16 and error bound 0.001,
written at offset 7. -/
theorem block_output_layout_witness :
    0 + 3 ≤ [0xC1800000, 0x41800000, 0x41000000].length ∧
    ∃ o, SZx_compress_one_block_float_sw ieee32 [0xC1800000, 0x41800000, 0x41000000] 0 3
        0x3A83126F (fun _ => 0) 7 (fun _ => 0) 0 0x41800000 = some o ∧
      o.outputBytes 7 = reqLengthOf ieee32 0x3A83126F 0x41800000 0 ∧
      (∀ k < 4, o.outputBytes (7 + 1 + k)
        = byteOf (ivalue ieee32 (medianOf ieee32 0x3A83126F 0x41800000 0)) k) ∧
      (∀ j < (3 + 3) / 4,
        o.outputBytes (7 + 5 + j) = packed2b o.leadNumberArray_int 3 j) ∧
      ((∀ i < 3, o.leadNumberArray_int i ≤ 3) → ∀ i < 3,
        (o.outputBytes (7 + 5 + i / 4) >>> (6 - 2 * (i % 4))) % 4
          = o.leadNumberArray_int i) ∧
      ((reqBytesLengthOf (reqLengthOf ieee32 0x3A83126F 0x41800000 0) = 2 ∨
          reqBytesLengthOf (reqLengthOf ieee32 0x3A83126F 0x41800000 0) = 3) →
        ∀ i < 3, o.leadNumberArray_int i ≤ 3) ∧
      (∀ j < (blockResid ieee32 [0xC1800000, 0x41800000, 0x41000000] 0 3 0x3A83126F 0
          0x41800000).length,
        o.outputBytes (7 + 5 + (3 + 3) / 4 + j)
          = (blockResid ieee32 [0xC1800000, 0x41800000, 0x41000000] 0 3 0x3A83126F 0
              0x41800000).getD j 0) ∧
      o.outSize = 1 + 4 + (3 + 3) / 4
        + (blockResid ieee32 [0xC1800000, 0x41800000, 0x41000000] 0 3 0x3A83126F 0
            0x41800000).length ∧
      (∀ a, (a < 7 ∨ 7 + o.outSize ≤ a) → o.outputBytes a = (fun _ => 0) a) :=
  ⟨by decide, block_output_layout ieee32 [0xC1800000, 0x41800000, 0x41000000] 0 3
    0x3A83126F (fun _ => 0) 7 (fun _ => 0) 0 0x41800000 (by decide)⟩

/-! ## What the statistics pass records for each block -/

theorem statsBlock_rec {F : Type} (M : FloatSem F) (oriData : List F) (absErrBound : F)
    (blockSize : Nat) (st0 : Nat → Nat) (med0 rad0 : Nat → F)
    (again : Bool) (len i : Nat) (s : Stats F)
    (hlen : 1 ≤ len) (hin : i * blockSize + len ≤ oriData.length)
    (hbl : blockLength oriData.length blockSize i = len)
    (hrec : StatsRec M oriData absErrBound blockSize i s)
    (hfr : StatsFrame st0 med0 rad0 i s) :
    ∃ s1, statsBlock M oriData absErrBound again (i * blockSize) len i s = some s1 ∧
      StatsRec M oriData absErrBound blockSize (i + 1) s1 ∧
      StatsFrame st0 med0 rad0 (i + 1) s1 := by
  obtain ⟨mn, mx, hscan, heq⟩ := statsBlock_eq M oriData absErrBound again (i * blockSize) len i s
    hlen hin
  have hlt : i * blockSize < oriData.length := by omega
  refine ⟨_, heq, ?_, ?_⟩
  · intro k hk
    by_cases hki : k = i
    · subst hki
      refine ⟨oriData.get ⟨k * blockSize, hlt⟩, mn, mx, ?_, ?_, ?_, ?_, ?_⟩
      · simp [List.getElem?_eq_getElem hlt]
      · rw [hbl]; exact hscan
      · simp only [store_same]
      · simp only [store_same]
      · simp only [store_same]
    · obtain ⟨first, mn1, mx1, h1, h2, h3, h4, h5⟩ := hrec k (by omega)
      refine ⟨first, mn1, mx1, h1, h2, ?_, ?_, ?_⟩
      · simp only [store_other _ _ _ _ hki]; exact h3
      · simp only [store_other _ _ _ _ hki]; exact h4
      · simp only [store_other _ _ _ _ hki]; exact h5
  · intro k hk
    have hki : k ≠ i := by omega
    obtain ⟨h1, h2, h3⟩ := hfr k (by omega)
    simp only [store_other _ _ _ _ hki]
    exact ⟨h1, h2, h3⟩

theorem blockLength_full (nbEle blockSize i : Nat) (h : i < nbEle / blockSize) :
    blockLength nbEle blockSize i = blockSize := by
  simp [blockLength, h]

theorem blockLength_last (nbEle blockSize : Nat) :
    blockLength nbEle blockSize (nbEle / blockSize) = nbEle % blockSize := by
  simp [blockLength]

theorem statsLoop_rec {F : Type} (M : FloatSem F) (oriData : List F) (absErrBound : F)
    (blockSize : Nat) (st0 : Nat → Nat) (med0 rad0 : Nat → F) (hbs : 1 ≤ blockSize) :
    ∀ (cnt i : Nat) (s : Stats F), i + cnt ≤ oriData.length / blockSize →
      StatsRec M oriData absErrBound blockSize i s → StatsFrame st0 med0 rad0 i s →
      ∃ s1, statsLoop M oriData absErrBound blockSize cnt i (i * blockSize) s
          = some (i + cnt, (i + cnt) * blockSize, s1) ∧
        StatsRec M oriData absErrBound blockSize (i + cnt) s1 ∧
        StatsFrame st0 med0 rad0 (i + cnt) s1 := by
  intro cnt
  induction cnt with
  | zero =>
    intro i s _ hrec hfr
    exact ⟨s, by simp [statsLoop], hrec, hfr⟩
  | succ cnt ih =>
    intro i s hle hrec hfr
    have hdiv : oriData.length / blockSize * blockSize ≤ oriData.length :=
      Nat.div_mul_le_self _ _
    have h1le : (i + 1) * blockSize ≤ oriData.length / blockSize * blockSize :=
      Nat.mul_le_mul_right _ (by omega)
    have e2 : (i + 1) * blockSize = i * blockSize + blockSize := Nat.succ_mul i blockSize
    obtain ⟨s1, h1, hrec1, hfr1⟩ := statsBlock_rec M oriData absErrBound blockSize st0 med0 rad0
      true blockSize i s hbs (by omega) (blockLength_full _ _ _ (by omega)) hrec hfr
    obtain ⟨s2, h2, hrec2, hfr2⟩ := ih (i + 1) s1 (by omega) hrec1 hfr1
    have e3 : i + 1 + cnt = i + (cnt + 1) := by omega
    refine ⟨s2, ?_, ?_, ?_⟩
    · simp only [statsLoop, h1]
      rw [← e2, h2, e3]
    · rw [← e3]; exact hrec2
    · rw [← e3]; exact hfr2

/-- The statistics pass returns on every input with a block size of at least 1; entry `k` of
its arrays holds the statistics of block `k` for every `k < actualNBBlocks`, and the entries
from `actualNBBlocks` on are not written. -/
theorem computeStateMedianRadius_float_rec {F : Type} (M : FloatSem F) (oriData : List F)
    (absErrBound : F) (blockSize : Nat) (st0 : Nat → Nat) (med0 rad0 : Nat → F)
    (hbs : 1 ≤ blockSize) :
    ∃ s, computeStateMedianRadius_float M oriData absErrBound blockSize st0 med0 rad0 = some s ∧
      StatsRec M oriData absErrBound blockSize (actualNBBlocks oriData.length blockSize) s ∧
      StatsFrame st0 med0 rad0 (actualNBBlocks oriData.length blockSize) s := by
  have hdm := Nat.div_add_mod oriData.length blockSize
  have hmodlt := Nat.mod_lt oriData.length (show 0 < blockSize by omega)
  have hcomm : oriData.length / blockSize * blockSize = blockSize * (oriData.length / blockSize) :=
    Nat.mul_comm _ _
  obtain ⟨s1, h1, hrec1, hfr1⟩ := statsLoop_rec M oriData absErrBound blockSize st0 med0 rad0 hbs
    (oriData.length / blockSize) 0
    { nbConstantBlocks := 0, stateArray := st0, medianArray := med0, radiusArray := rad0 }
    (by omega) (by intro k hk; omega) (by intro k _; exact ⟨rfl, rfl, rfl⟩)
  simp only [Nat.zero_add, Nat.zero_mul] at h1 hrec1 hfr1
  unfold computeStateMedianRadius_float actualNBBlocks
  rw [if_neg (by omega)]
  simp only [h1]
  by_cases hrem : oriData.length % blockSize = 0
  · rw [if_neg (not_not.mpr hrem), if_pos hrem]
    exact ⟨s1, rfl, hrec1, hfr1⟩
  · rw [if_pos hrem, if_neg hrem]
    exact statsBlock_rec M oriData absErrBound blockSize st0 med0 rad0 false _ _ s1 (by omega)
      (by omega) (blockLength_last _ _) hrec1 hfr1

/-! ## The stream assembler: where the sections are written -/

/-- The scan under an order key: when the comparison `lt` of the samples at hand is the strict
order of an integer key and the running minimum is not above the running maximum, the scan
returns a least and a greatest key among the start values and the samples read, each of them
a start value or a sample read. -/
theorem scanMinMax_keyed {F : Type} (M : FloatSem F) (key : F → Int) (good : F → Prop)
    (hlt : ∀ a b, good a → good b → (M.lt a b = true ↔ key a < key b))
    (oriData : List F) (offset : Nat) :
    ∀ (cnt j : Nat) (mn mx : F) (r : F × F),
      scanMinMax M oriData offset cnt j mn mx = some r → good mn → good mx →
      key mn ≤ key mx →
      (∀ t < cnt, ∀ x, oriData[offset + j + t]? = some x → good x) →
      key r.1 ≤ key mn ∧ key mx ≤ key r.2 ∧
      (∀ t < cnt, ∀ x, oriData[offset + j + t]? = some x → key r.1 ≤ key x ∧ key x ≤ key r.2) ∧
      (r.1 = mn ∨ ∃ t < cnt, oriData[offset + j + t]? = some r.1) ∧
      (r.2 = mx ∨ ∃ t < cnt, oriData[offset + j + t]? = some r.2) := by
  intro cnt
  induction cnt with
  | zero =>
    intro j mn mx r h _ _ _ _
    simp only [scanMinMax, Option.some.injEq] at h
    subst h
    exact ⟨le_refl _, le_refl _, by intro t ht; omega, Or.inl rfl, Or.inl rfl⟩
  | succ cnt ih =>
    intro j mn mx r h gmn gmx hle hg
    unfold scanMinMax at h
    cases hv : oriData[offset + j]? with
    | none => rw [hv] at h; simp at h
    | some v =>
      rw [hv] at h
      simp only at h
      have gv : good v := hg 0 (by omega) v (by rw [Nat.add_zero]; exact hv)
      have hidx : ∀ t, offset + (j + 1) + t = offset + j + (t + 1) := by intro t; omega
      have hg1 : ∀ t < cnt, ∀ x, oriData[offset + (j + 1) + t]? = some x → good x := by
        intro t ht x hx
        rw [hidx t] at hx
        exact hg (t + 1) (by omega) x hx
      have step : ∀ (mn1 mx1 : F), good mn1 → good mx1 → key mn1 ≤ key mx1 →
          key mn1 ≤ key mn → key mx ≤ key mx1 → key mn1 ≤ key v → key v ≤ key mx1 →
          (mn1 = mn ∨ mn1 = v) → (mx1 = mx ∨ mx1 = v) →
          scanMinMax M oriData offset cnt (j + 1) mn1 mx1 = some r →
          key r.1 ≤ key mn ∧ key mx ≤ key r.2 ∧
          (∀ t < cnt + 1, ∀ x, oriData[offset + j + t]? = some x →
            key r.1 ≤ key x ∧ key x ≤ key r.2) ∧
          (r.1 = mn ∨ ∃ t < cnt + 1, oriData[offset + j + t]? = some r.1) ∧
          (r.2 = mx ∨ ∃ t < cnt + 1, oriData[offset + j + t]? = some r.2) := by
        intro mn1 mx1 g1 g2 h11 h1 h2 h3 h4 h5 h6 hs
        obtain ⟨a1, a2, a3, a4, a5⟩ := ih (j + 1) mn1 mx1 r hs g1 g2 h11 hg1
        refine ⟨le_trans a1 h1, le_trans h2 a2, ?_, ?_, ?_⟩
        · intro t ht x hx
          cases t with
          | zero =>
            rw [Nat.add_zero, hv, Option.some.injEq] at hx
            subst hx
            exact ⟨le_trans a1 h3, le_trans h4 a2⟩
          | succ t =>
            rw [← hidx t] at hx
            exact a3 t (by omega) x hx
        · rcases a4 with a4 | ⟨t, ht, hx⟩
          · rcases h5 with h5 | h5
            · left; rw [a4, h5]
            · right; exact ⟨0, by omega, by rw [Nat.add_zero, hv, a4, h5]⟩
          · right; exact ⟨t + 1, by omega, by rw [← hidx t]; exact hx⟩
        · rcases a5 with a5 | ⟨t, ht, hx⟩
          · rcases h6 with h6 | h6
            · left; rw [a5, h6]
            · right; exact ⟨0, by omega, by rw [Nat.add_zero, hv, a5, h6]⟩
          · right; exact ⟨t + 1, by omega, by rw [← hidx t]; exact hx⟩
      by_cases h1 : M.lt v mn = true
      · rw [if_pos h1] at h
        have hk : key v < key mn := (hlt v mn gv gmn).mp h1
        exact step v mx gv gmx (le_trans (le_of_lt hk) hle) (le_of_lt hk) (le_refl _) (le_refl _)
          (le_trans (le_of_lt hk) hle) (Or.inr rfl) (Or.inl rfl) h
      · rw [if_neg h1] at h
        have hk1 : key mn ≤ key v := not_lt.mp (fun hh => h1 ((hlt v mn gv gmn).mpr hh))
        by_cases h2 : M.lt mx v = true
        · rw [if_pos h2] at h
          have hk : key mx < key v := (hlt mx v gmx gv).mp h2
          exact step mn v gmn gv (le_trans hle (le_of_lt hk)) (le_refl _) (le_of_lt hk)
            (le_trans hle (le_of_lt hk)) (le_refl _) (Or.inl rfl) (Or.inr rfl) h
        · rw [if_neg h2] at h
          have hk2 : key v ≤ key mx := not_lt.mp (fun hh => h2 ((hlt mx v gmx gv).mpr hh))
          exact step mn mx gmn gmx hle (le_refl _) (le_refl _) hk1 hk2
            (Or.inl rfl) (Or.inl rfl) h

theorem ieee_lt_iff (a b : Nat) (ha : IEEE.isNaN a = false) (hb : IEEE.isNaN b = false) :
    ieee32.lt a b = true ↔ IEEE.key a < IEEE.key b := by
  simp [ieee32, IEEE.lt, ha, hb]

theorem ieee_le_iff (a b : Nat) (ha : IEEE.isNaN a = false) (hb : IEEE.isNaN b = false) :
    ieee32.le a b = true ↔ IEEE.key a ≤ IEEE.key b := by
  simp [ieee32, IEEE.le, ha, hb]

/-- Every block has at least one sample and ends inside the array. -/
theorem block_in_bounds (nbEle blockSize i : Nat) (hbs : 1 ≤ blockSize)
    (hi : i < actualNBBlocks nbEle blockSize) :
    1 ≤ blockLength nbEle blockSize i ∧
    i * blockSize + blockLength nbEle blockSize i ≤ nbEle := by
  have hdm := Nat.div_add_mod nbEle blockSize
  have hcomm : nbEle / blockSize * blockSize = blockSize * (nbEle / blockSize) :=
    Nat.mul_comm _ _
  by_cases hfull : i < nbEle / blockSize
  · rw [blockLength_full _ _ _ hfull]
    have h1 : (i + 1) * blockSize ≤ nbEle / blockSize * blockSize :=
      Nat.mul_le_mul_right _ hfull
    have h2 : (i + 1) * blockSize = i * blockSize + blockSize := Nat.succ_mul _ _
    exact ⟨hbs, by omega⟩
  · unfold actualNBBlocks at hi
    by_cases hrem : nbEle % blockSize = 0
    · rw [if_pos hrem] at hi; omega
    · rw [if_neg hrem] at hi
      have hieq : i = nbEle / blockSize := by omega
      subst hieq
      rw [blockLength_last]
      exact ⟨by omega, by omega⟩

/-- C21: for every array of samples, every block size at least 1 and every block `i` (full or
trailing) none of whose samples is a NaN, `computeStateMedianRadius_float` records
`radius = (max - min) / 2` and `median = min + radius` in binary32 arithmetic, where `min`
and `max` are samples of the block, `min <= x` and `x <= max` for every sample `x` of the
block: the scan, which tests `max < v` only when `min > v` fails, misses no maximum. -/
theorem min_max_recorded (oriData : List Nat) (absErrBound : Nat) (blockSize : Nat)
    (st0 : Nat → Nat) (med0 rad0 : Nat → Nat) (hbs : 1 ≤ blockSize) :
    ∃ s, computeStateMedianRadius_float ieee32 oriData absErrBound blockSize st0 med0 rad0
        = some s ∧
      ∀ i < actualNBBlocks oriData.length blockSize,
        (∀ j < blockLength oriData.length blockSize i, ∀ x,
          oriData[i * blockSize + j]? = some x → IEEE.isNaN x = false) →
        ∃ mn mx,
          (∃ j < blockLength oriData.length blockSize i,
            oriData[i * blockSize + j]? = some mn) ∧
          (∃ j < blockLength oriData.length blockSize i,
            oriData[i * blockSize + j]? = some mx) ∧
          (∀ j < blockLength oriData.length blockSize i, ∃ x,
            oriData[i * blockSize + j]? = some x ∧
            ieee32.le mn x = true ∧ ieee32.le x mx = true) ∧
          s.radiusArray i = ieee32.half (ieee32.sub mx mn) ∧
          s.medianArray i = ieee32.add mn (s.radiusArray i) := by
  obtain ⟨s, hs, hrec, _⟩ := computeStateMedianRadius_float_rec ieee32 oriData absErrBound
    blockSize st0 med0 rad0 hbs
  refine ⟨s, hs, ?_⟩
  intro i hi hgood
  obtain ⟨first, mn, mx, hfirst, hscan, hrad, hmed, _⟩ := hrec i hi
  obtain ⟨hb1, hb2⟩ := block_in_bounds oriData.length blockSize i hbs hi
  have gfirst : IEEE.isNaN first = false :=
    hgood 0 hb1 first (by rw [Nat.add_zero]; exact hfirst)
  obtain ⟨a1, a2, a3, a4, a5⟩ := scanMinMax_keyed ieee32 IEEE.key
    (fun x => IEEE.isNaN x = false) ieee_lt_iff oriData (i * blockSize) _ 1 first first (mn, mx)
    hscan gfirst gfirst (le_refl _)
    (fun t ht x hx => hgood (t + 1) (by omega) x
      (by rw [show i * blockSize + (t + 1) = i * blockSize + 1 + t by omega]; exact hx))
  simp only at a1 a2 a3 a4 a5
  have hmnAt : ∃ j < blockLength oriData.length blockSize i,
      oriData[i * blockSize + j]? = some mn := by
    rcases a4 with h | ⟨t, ht, hx⟩
    · exact ⟨0, hb1, by rw [Nat.add_zero, hfirst, h]⟩
    · exact ⟨t + 1, by omega,
        by rw [show i * blockSize + (t + 1) = i * blockSize + 1 + t by omega]; exact hx⟩
  have hmxAt : ∃ j < blockLength oriData.length blockSize i,
      oriData[i * blockSize + j]? = some mx := by
    rcases a5 with h | ⟨t, ht, hx⟩
    · exact ⟨0, hb1, by rw [Nat.add_zero, hfirst, h]⟩
    · exact ⟨t + 1, by omega,
        by rw [show i * blockSize + (t + 1) = i * blockSize + 1 + t by omega]; exact hx⟩
  have gmn : IEEE.isNaN mn = false := by
    obtain ⟨j, hj1, hj⟩ := hmnAt
    exact hgood j hj1 mn hj
  have gmx : IEEE.isNaN mx = false := by
    obtain ⟨j, hj1, hj⟩ := hmxAt
    exact hgood j hj1 mx hj
  refine ⟨mn, mx, hmnAt, hmxAt, ?_, hrad, by rw [hmed, hrad]⟩
  intro j hj
  have hlt : i * blockSize + j < oriData.length := by omega
  obtain ⟨x, hx⟩ : ∃ x, oriData[i * blockSize + j]? = some x := by
    rw [List.getElem?_eq_getElem hlt]
    exact ⟨_, rfl⟩
  refine ⟨x, hx, ?_⟩
  have gx := hgood j hj x hx
  have hk : IEEE.key mn ≤ IEEE.key x ∧ IEEE.key x ≤ IEEE.key mx := by
    cases j with
    | zero =>
      rw [Nat.add_zero, hfirst, Option.some.injEq] at hx
      subst hx
      exact ⟨a1, a2⟩
    | succ j =>
      exact a3 j (by omega) x
        (by rw [show i * blockSize + 1 + j = i * blockSize + (j + 1) by omega]; exact hx)
  exact ⟨(ieee_le_iff _ _ gmn gx).mpr hk.1, (ieee_le_iff _ _ gx gmx).mpr hk.2⟩

set_option maxRecDepth 8000 in
/-- Witness for C21: the samples 0, 1, 2, 3 in one block of four, none of them a NaN; also the
two blocks named by the property: 1, 1, 1, 1 gives radius 0 and median 1, and 0, 1, 2, 3
gives radius 1.5 (and median 1.5). -/
theorem min_max_recorded_witness :
    1 ≤ 4 ∧
    (∃ s, computeStateMedianRadius_float ieee32 [0, 0x3F800000, 0x40000000, 0x40400000]
        0x41200000 4 (fun _ => 0) (fun _ => 0) (fun _ => 0) = some s ∧
      ∀ i < actualNBBlocks [0, 0x3F800000, 0x40000000, 0x40400000].length 4,
        (∀ j < blockLength [0, 0x3F800000, 0x40000000, 0x40400000].length 4 i, ∀ x,
          [0, 0x3F800000, 0x40000000, 0x40400000][i * 4 + j]? = some x →
            IEEE.isNaN x = false) →
        ∃ mn mx,
          (∃ j < blockLength [0, 0x3F800000, 0x40000000, 0x40400000].length 4 i,
            [0, 0x3F800000, 0x40000000, 0x40400000][i * 4 + j]? = some mn) ∧
          (∃ j < blockLength [0, 0x3F800000, 0x40000000, 0x40400000].length 4 i,
            [0, 0x3F800000, 0x40000000, 0x40400000][i * 4 + j]? = some mx) ∧
          (∀ j < blockLength [0, 0x3F800000, 0x40000000, 0x40400000].length 4 i, ∃ x,
            [0, 0x3F800000, 0x40000000, 0x40400000][i * 4 + j]? = some x ∧
            ieee32.le mn x = true ∧ ieee32.le x mx = true) ∧
          s.radiusArray i = ieee32.half (ieee32.sub mx mn) ∧
          s.medianArray i = ieee32.add mn (s.radiusArray i)) ∧
    (∀ x ∈ [0, 0x3F800000, 0x40000000, 0x40400000], IEEE.isNaN x = false) ∧
    (computeStateMedianRadius_float ieee32 [0x3F800000, 0x3F800000, 0x3F800000, 0x3F800000]
        0x3C23D70A 4 (fun _ => 0) (fun _ => 0) (fun _ => 0)).map
        (fun s => (s.radiusArray 0, s.medianArray 0)) = some (0, 0x3F800000) ∧
    (computeStateMedianRadius_float ieee32 [0, 0x3F800000, 0x40000000, 0x40400000]
        0x41200000 4 (fun _ => 0) (fun _ => 0) (fun _ => 0)).map
        (fun s => (s.radiusArray 0, s.medianArray 0)) = some (0x3FC00000, 0x3FC00000) :=
  ⟨by decide,
    min_max_recorded [0, 0x3F800000, 0x40000000, 0x40400000] 0x41200000 4 (fun _ => 0)
      (fun _ => 0) (fun _ => 0) (by decide),
    by decide, by decide, by decide⟩

/-! ## Recovering the two most significant bytes -/

theorem xor_shift_eq (t p k : Nat) (h : (t ^^^ p) >>> k = 0) : t >>> k = p >>> k := by
  apply Nat.eq_of_testBit_eq
  intro j
  have hj := congrArg (fun z => z.testBit j) h
  simp only [Nat.testBit_shiftRight, Nat.testBit_xor, Nat.zero_testBit] at hj
  rw [Nat.testBit_shiftRight, Nat.testBit_shiftRight]
  cases h1 : t.testBit (k + j) <;> cases h2 : p.testBit (k + j) <;> simp_all

/-- A leading count other than 0 is given only when the XOR word has no bit from 24 up. -/
theorem leadingNumOf_ne_zero (x : Nat) (h : leadingNumOf x ≠ 0) : x >>> 24 = 0 := by
  unfold leadingNumOf at h
  by_cases h8 : x >>> 8 = 0
  · rw [show (24 : Nat) = 8 + 16 from rfl, Nat.shiftRight_add, h8, Nat.zero_shiftRight]
  · rw [if_neg h8] at h
    by_cases h16 : x >>> 16 = 0
    · rw [show (24 : Nat) = 16 + 8 from rfl, Nat.shiftRight_add, h16, Nat.zero_shiftRight]
    · rw [if_neg h16] at h
      by_cases h24 : x >>> 24 = 0
      · exact h24
      · rw [if_neg h24] at h
        exact absurd rfl h

/-- A leading count other than 0 and 1 is given only when the XOR word has no bit from 16
up. -/
theorem leadingNumOf_ge_two (x : Nat) (h0 : leadingNumOf x ≠ 0) (h1 : leadingNumOf x ≠ 1) :
    x >>> 16 = 0 := by
  unfold leadingNumOf at h0 h1
  by_cases h8 : x >>> 8 = 0
  · rw [show (16 : Nat) = 8 + 8 from rfl, Nat.shiftRight_add, h8, Nat.zero_shiftRight]
  · rw [if_neg h8] at h0 h1
    by_cases h16 : x >>> 16 = 0
    · exact h16
    · rw [if_neg h16] at h0 h1
      by_cases h24 : x >>> 24 = 0
      · rw [if_pos h24] at h1
        exact absurd rfl h1
      · rw [if_neg h24] at h0
        exact absurd rfl h0

theorem byteOf_three_eq (t p : Nat) (h : t >>> 24 = p >>> 24) : byteOf t 3 = byteOf p 3 := by
  show (t >>> 24) % 256 = (p >>> 24) % 256
  rw [h]

theorem byteOf_two_eq (t p : Nat) (h : t >>> 16 = p >>> 16) : byteOf t 2 = byteOf p 2 := by
  show (t >>> 16) % 256 = (p >>> 16) % 256
  rw [h]

theorem shift_24_of_16 (t p : Nat) (h : t >>> 16 = p >>> 16) : t >>> 24 = p >>> 24 := by
  rw [show (24 : Nat) = 16 + 8 from rfl, Nat.shiftRight_add, Nat.shiftRight_add, h]

/-- The walk of the property, run on the leading counts and the residual bytes of a sequence
of transformed values under the two-byte selection, returns bytes 3 and 2 of every value. -/
theorem recoverTop2_spec : ∀ (ts : List Nat) (pre : Nat) (rest : List Nat),
    recoverTop2 (byteOf pre 3) (byteOf pre 2) (leadsOf pre ts)
        (residOf midBytes2 pre ts ++ rest)
      = ts.map (fun t => (byteOf t 3, byteOf t 2)) := by
  intro ts
  induction ts with
  | nil => intro pre rest; rfl
  | cons t ts ih =>
    intro pre rest
    by_cases h0 : leadingNumOf (t ^^^ pre) = 0
    · simp only [leadsOf, residOf, recoverTop2, midBytes2, h0, if_true, List.cons_append,
        List.nil_append, List.getD_cons_zero, List.getD_cons_succ, List.drop_succ_cons,
        List.drop_zero, List.map_cons]
      rw [ih t rest]
    · have e3 : byteOf t 3 = byteOf pre 3 :=
        byteOf_three_eq t pre (xor_shift_eq t pre 24 (leadingNumOf_ne_zero _ h0))
      by_cases h1 : leadingNumOf (t ^^^ pre) = 1
      · simp only [leadsOf, residOf, recoverTop2, midBytes2, h1, if_true, List.cons_append,
          List.nil_append, List.getD_cons_zero, List.drop_succ_cons, List.drop_zero,
          List.map_cons, one_ne_zero, if_false]
        rw [← e3, ih t rest]
      · have e16 := xor_shift_eq t pre 16 (leadingNumOf_ge_two _ h0 h1)
        have e2 : byteOf t 2 = byteOf pre 2 := byteOf_two_eq t pre e16
        simp only [leadsOf, residOf, recoverTop2, midBytes2, h0, h1, if_false,
          List.nil_append, List.map_cons]
        rw [← e3, ← e2, ih t rest]

theorem readBytes_of_getD : ∀ (l : List Nat) (m : Mem) (a : Nat),
    (∀ j < l.length, m (a + j) = l.getD j 0) → readBytes m a l.length = l := by
  intro l
  induction l with
  | nil => intro m a _; rfl
  | cons b bs ih =>
    intro m a h
    have h0 := h 0 (by simp)
    simp only [Nat.add_zero, List.getD_cons_zero] at h0
    simp only [List.length_cons, readBytes, h0]
    rw [ih m (a + 1) (fun j hj => by
      have := h (j + 1) (by simpa using hj)
      rw [List.getD_cons_succ] at this
      rw [← this]
      congr 1
      omega)]

theorem map_range_getD (l : List Nat) (n : Nat) (hn : l.length = n) :
    (List.range n).map (fun i => l.getD i 0) = l := by
  subst hn
  apply List.ext_getElem
  · simp
  · intro i h1 h2
    simp [List.getD_eq_getElem?_getD, List.getElem?_eq_getElem h2]

/-- C22: for every block inside the sample array for which the encoder plans at most 16 bits
(two bytes per value), the encoder returns, and the walk of the property, run on the leading
counts read from the two-bit fields of the output and on the residual bytes read from the
output, returns for every element `i` byte 3 and byte 2 of its transformed value. -/
theorem top_bytes_recoverable {F : Type} (M : FloatSem F) (oriData : List F) (op nbEle : Nat)
    (absErrBound : F) (mem : Mem) (outputBytes : Nat) (lead0 : Nat → Nat)
    (medianValue radius : F) (hin : op + nbEle ≤ oriData.length)
    (h16 : reqLengthOf M absErrBound radius medianValue ≤ 16) :
    reqBytesLengthOf (reqLengthOf M absErrBound radius medianValue) = 2 ∧
    ∃ o, SZx_compress_one_block_float_sw M oriData op nbEle absErrBound mem outputBytes lead0
        medianValue radius = some o ∧
      recoverTop2 0 0
          ((List.range nbEle).map (fun i =>
            (o.outputBytes (outputBytes + 5 + i / 4) >>> (6 - 2 * (i % 4))) % 4))
          (readBytes o.outputBytes (outputBytes + 5 + (nbEle + 3) / 4)
            (o.outSize - (5 + (nbEle + 3) / 4)))
        = (List.range nbEle).map (fun i =>
            (byteOf (transformed M oriData op (medianOf M absErrBound radius medianValue)
                (rightShiftBitsOf (reqLengthOf M absErrBound radius medianValue)) i) 3,
             byteOf (transformed M oriData op (medianOf M absErrBound radius medianValue)
                (rightShiftBitsOf (reqLengthOf M absErrBound radius medianValue)) i) 2)) := by
  have h9 := (reqLengthOf_range M absErrBound radius medianValue).1
  have h2 : reqBytesLengthOf (reqLengthOf M absErrBound radius medianValue) = 2 := by
    unfold reqBytesLengthOf
    split <;> omega
  refine ⟨h2, ?_⟩
  obtain ⟨o, ho, hsz, hlead, _, _, hpk, hres, _⟩ := encoder_layout M oriData op nbEle
    absErrBound mem outputBytes lead0 medianValue radius hin
  refine ⟨o, ho, ?_⟩
  have hresid : blockResid M oriData op nbEle absErrBound medianValue radius
      = residOf midBytes2 0 (tList M oriData op (medianOf M absErrBound radius medianValue)
          (rightShiftBitsOf (reqLengthOf M absErrBound radius medianValue)) 0 nbEle) := by
    unfold blockResid
    rw [if_pos h2]
  have hle := blockLeads_le M oriData op nbEle absErrBound medianValue radius lead0 (Or.inl h2)
  have hleads : (List.range nbEle).map (fun i =>
        (o.outputBytes (outputBytes + 5 + i / 4) >>> (6 - 2 * (i % 4))) % 4)
      = leadsOf 0 (tList M oriData op (medianOf M absErrBound radius medianValue)
          (rightShiftBitsOf (reqLengthOf M absErrBound radius medianValue)) 0 nbEle) := by
    rw [← map_range_getD (leadsOf 0 (tList M oriData op
      (medianOf M absErrBound radius medianValue)
      (rightShiftBitsOf (reqLengthOf M absErrBound radius medianValue)) 0 nbEle)) nbEle
      (by rw [leadsOf_length, tList_length])]
    apply List.map_congr_left
    intro i hi
    have hi2 : i < nbEle := List.mem_range.mp hi
    rw [hpk (i / 4) (by omega),
      packed2b_field (blockLeads M oriData op nbEle absErrBound medianValue radius lead0) nbEle
        hle i hi2]
    unfold blockLeads
    rw [if_pos ⟨Or.inl h2, hi2⟩]
  have hbytes : readBytes o.outputBytes (outputBytes + 5 + (nbEle + 3) / 4)
        (o.outSize - (5 + (nbEle + 3) / 4))
      = blockResid M oriData op nbEle absErrBound medianValue radius := by
    rw [show o.outSize - (5 + (nbEle + 3) / 4)
      = (blockResid M oriData op nbEle absErrBound medianValue radius).length by omega]
    exact readBytes_of_getD _ _ _ hres
  rw [hleads, hbytes, hresid]
  have hspec := recoverTop2_spec (tList M oriData op (medianOf M absErrBound radius medianValue)
    (rightShiftBitsOf (reqLengthOf M absErrBound radius medianValue)) 0 nbEle) 0 []
  rw [List.append_nil] at hspec
  have hspec0 : recoverTop2 0 0
      (leadsOf 0 (tList M oriData op (medianOf M absErrBound radius medianValue)
        (rightShiftBitsOf (reqLengthOf M absErrBound radius medianValue)) 0 nbEle))
      (residOf midBytes2 0 (tList M oriData op (medianOf M absErrBound radius medianValue)
        (rightShiftBitsOf (reqLengthOf M absErrBound radius medianValue)) 0 nbEle))
      = (tList M oriData op (medianOf M absErrBound radius medianValue)
        (rightShiftBitsOf (reqLengthOf M absErrBound radius medianValue)) 0 nbEle).map
          (fun t => (byteOf t 3, byteOf t 2)) := hspec
  rw [hspec0]
  unfold tList
  rw [List.map_map, List.range_eq_range']
  rfl

set_option maxRecDepth 8000 in
/-- Witness for C22: the block -16, 16, 8, 8.5, 8.5 with median 0, radius 16 and error bound
0.5 (15 bits, leading counts 0, 0, 1, 1, 3), written at offset 7; the recovered pairs are
(96, 192), (32, 192), (32, 128), (32, 132), (32, 132). -/
theorem top_bytes_recoverable_witness :
    0 + 5 ≤ [0xC1800000, 0x41800000, 0x41000000, 0x41080000, 0x41080000].length ∧
    reqLengthOf ieee32 0x3F000000 0x41800000 0 ≤ 16 ∧
    (reqBytesLengthOf (reqLengthOf ieee32 0x3F000000 0x41800000 0) = 2 ∧
    ∃ o, SZx_compress_one_block_float_sw ieee32
        [0xC1800000, 0x41800000, 0x41000000, 0x41080000, 0x41080000] 0 5 0x3F000000
        (fun _ => 0) 7 (fun _ => 0) 0 0x41800000 = some o ∧
      recoverTop2 0 0
          ((List.range 5).map (fun i =>
            (o.outputBytes (7 + 5 + i / 4) >>> (6 - 2 * (i % 4))) % 4))
          (readBytes o.outputBytes (7 + 5 + (5 + 3) / 4) (o.outSize - (5 + (5 + 3) / 4)))
        = (List.range 5).map (fun i =>
            (byteOf (transformed ieee32
                [0xC1800000, 0x41800000, 0x41000000, 0x41080000, 0x41080000] 0
                (medianOf ieee32 0x3F000000 0x41800000 0)
                (rightShiftBitsOf (reqLengthOf ieee32 0x3F000000 0x41800000 0)) i) 3,
             byteOf (transformed ieee32
                [0xC1800000, 0x41800000, 0x41000000, 0x41080000, 0x41080000] 0
                (medianOf ieee32 0x3F000000 0x41800000 0)
                (rightShiftBitsOf (reqLengthOf ieee32 0x3F000000 0x41800000 0)) i) 2))) ∧
    (List.range 5).map (fun i =>
        (byteOf (transformed ieee32
            [0xC1800000, 0x41800000, 0x41000000, 0x41080000, 0x41080000] 0
            (medianOf ieee32 0x3F000000 0x41800000 0)
            (rightShiftBitsOf (reqLengthOf ieee32 0x3F000000 0x41800000 0)) i) 3,
         byteOf (transformed ieee32
            [0xC1800000, 0x41800000, 0x41000000, 0x41080000, 0x41080000] 0
            (medianOf ieee32 0x3F000000 0x41800000 0)
            (rightShiftBitsOf (reqLengthOf ieee32 0x3F000000 0x41800000 0)) i) 2))
      = [(96, 192), (32, 192), (32, 128), (32, 132), (32, 132)] :=
  ⟨by decide, by decide,
    top_bytes_recoverable ieee32 [0xC1800000, 0x41800000, 0x41000000, 0x41080000, 0x41080000]
      0 5 0x3F000000 (fun _ => 0) 7 (fun _ => 0) 0 0x41800000 (by decide) (by decide),
    by decide⟩

/-! ## The packed leading counts at a block of four-byte values -/

set_option maxRecDepth 8000 in
/-- C11, the code at Scenario C: for the block 0, 100, 1, 99 with error bound 0.001, median 50
and radius 50 the encoder plans 25 bits, four bytes per value. The leading counts of the four
elements (each transformed value XORed with the one before it, as the element loops classify
them) are 0, 0, 0, 0, whose two-bit packing is the byte 0. Run on a scratch array holding 3
everywhere, the encoder visits no element, leaves the scratch as it was, and writes at
offset 5 the byte 255, the packing of the scratch, not of the leading counts; it reports the
size 6. -/
theorem scenarioC_packs_scratch_not_counts :
    reqBytesLengthOf (reqLengthOf ieee32 0x3A83126F 0x42480000 0x42480000) = 4 ∧
    leadsOf 0 (tList ieee32 [0, 0x42C80000, 0x3F800000, 0x42C60000] 0
        (medianOf ieee32 0x3A83126F 0x42480000 0x42480000)
        (rightShiftBitsOf (reqLengthOf ieee32 0x3A83126F 0x42480000 0x42480000)) 0 4)
      = [0, 0, 0, 0] ∧
    packed2b (fun k => (leadsOf 0 (tList ieee32 [0, 0x42C80000, 0x3F800000, 0x42C60000] 0
        (medianOf ieee32 0x3A83126F 0x42480000 0x42480000)
        (rightShiftBitsOf (reqLengthOf ieee32 0x3A83126F 0x42480000 0x42480000)) 0 4)).getD k 0)
        4 0 = 0 ∧
    (SZx_compress_one_block_float_sw ieee32 [0, 0x42C80000, 0x3F800000, 0x42C60000] 0 4
        0x3A83126F (fun _ => 0) 0 (fun _ => 3) 0x42480000 0x42480000).map
        (fun o => (o.outSize, o.outputBytes 5,
          [o.leadNumberArray_int 0, o.leadNumberArray_int 1, o.leadNumberArray_int 2,
            o.leadNumberArray_int 3]))
      = some (6, 255, [3, 3, 3, 3]) := by
  refine ⟨by decide, by decide, by decide, by decide⟩

/-! ## The recorded median and radius in binary32 -/

end SZx
